import Mathlib

/-
Verification of the GUI-builder export/serialisation engine
(repository TheOddlySeagull/GUI-builder).

Shallow embedding of:
  * gui_builder_app/models.py        : Rect (normalized / width / height / cells)
  * gui_builder_app/app.py           : _background_to_rects / _background_from_rects,
                                       load_from_json_dict (incl. the local _alloc_uid),
                                       the packing phase of _plan_component_sheet_layout
                                       (_can_place / _mark / _place_in_sheet, the
                                       placement loop, placement_index)
  * gui_builder_app/texture_mapping.py : ctm_tile_offset

Python `List[List[bool]]` grids are embedded as `List (List Bool)`, Python ints
as `Int` (or `Nat` where the source value is a `range` index and hence
non-negative), dict lookups as association-list lookups, and exceptions as an
`Option String` error component threaded through the state.  Leading
underscores of Python names are dropped where Lean requires it.

The file is organised as: all definitions first, then all theorems.
-/

set_option maxRecDepth 1000000

namespace GuiBuilder

/-! # DEFINITIONS -/

/-! ## 2-D boolean grids

Helper view of Python `List[List[bool]]` with the indexing `g[y][x]` used by
the source.  Reads outside the list bounds return `false` (the source only
indexes in bounds; totalising the read keeps the Lean functions total). -/

def getCell (g : List (List Bool)) (y x : Nat) : Bool :=
  ((g[y]?).getD [])[x]?.getD false

/-- `g[y][x] = True` on a list-of-lists grid (in-bounds writes only at the
call sites below, mirroring the source). -/
def setCellTrue (g : List (List Bool)) (y x : Nat) : List (List Bool) :=
  g.set y (((g[y]?).getD []).set x true)

/-- `[[False for _ in range(n)] for _ in range(n)]` -/
def emptyGrid (n : Nat) : List (List Bool) :=
  List.replicate n (List.replicate n false)

/-- An `n` × `n` well-formed grid: exactly the shape the source produces and
consumes for a configured grid size `n`. -/
def WFGrid (n : Nat) (g : List (List Bool)) : Prop :=
  g.length = n ∧ ∀ row ∈ g, row.length = n

instance (n : Nat) (g : List (List Bool)) : Decidable (WFGrid n g) := by
  unfold WFGrid; infer_instance

/-- Inner marking loop `for xx in range(x0, x0+w): g[y][xx] = True`. -/
def markRow (g : List (List Bool)) (x0 y w : Nat) : List (List Bool) :=
  (List.range w).foldl (fun acc dx => setCellTrue acc y (x0 + dx)) g

/-- The nested marking loops
`for yy in range(y0, y0+h): for xx in range(x0, x0+w): g[yy][xx] = True`
(used both by `_background_to_rects` for `visited` and by `_mark` for the
sheet occupancy grid). -/
def markRect (g : List (List Bool)) (x0 y0 w h : Nat) : List (List Bool) :=
  (List.range h).foldl (fun acc dy => markRow acc x0 (y0 + dy) w) g

/-! ## Rect (gui_builder_app/models.py) -/

/-- Python `range(a, b)` over machine integers. -/
def intRange (a b : Int) : List Int :=
  (List.range (b - a).toNat).map (fun (i : Nat) => a + (i : Int))

/-- `@dataclass class Rect` from models.py (integer corners). -/
structure Rect where
  x0 : Int
  y0 : Int
  x1 : Int
  y1 : Int
deriving DecidableEq

namespace Rect

/-- `Rect.normalized`: `sorted((x0, x1))` is `(min, max)` on each axis. -/
def normalized (r : Rect) : Rect :=
  ⟨min r.x0 r.x1, min r.y0 r.y1, max r.x0 r.x1, max r.y0 r.y1⟩

/-- `Rect.width` (inclusive). -/
def width (r : Rect) : Int :=
  r.normalized.x1 - r.normalized.x0 + 1

/-- `Rect.height` (inclusive). -/
def height (r : Rect) : Int :=
  r.normalized.y1 - r.normalized.y0 + 1

/-- `Rect.cells`:
`[(x, y) for y in range(r.y0, r.y1+1) for x in range(r.x0, r.x1+1)]`
on the normalized rectangle. -/
def cells (r : Rect) : List (Int × Int) :=
  let nr := r.normalized
  (intRange nr.y0 (nr.y1 + 1)).flatMap
    (fun y => (intRange nr.x0 (nr.x1 + 1)).map (fun x => (x, y)))

end Rect

/-! ## Background codec
(app.py `_background_to_rects` / `_background_from_rects`; `self.grid_n` is
passed explicitly as `n`). -/

/-- Structural helper for `growRun`: `fuel` is `stop - p`, so `fuel = 0`
exactly when the loop bound `p < stop` fails. -/
def growRunAux (ok : Nat → Bool) : Nat → Nat → Nat
  | 0, _ => 0
  | fuel + 1, p => if ok p then growRunAux ok fuel (p + 1) + 1 else 0

/-- Run length of a `while` loop: the number of consecutive positions
`p, p+1, ...` with `p < stop` and `ok p` (the two growth loops of
`_background_to_rects`, which test the bound before the cell predicate). -/
def growRun (ok : Nat → Bool) (stop p : Nat) : Nat :=
  growRunAux ok (stop - p) p

/-- Width growth of `_background_to_rects`:
`w = 1` then `while x + w < n and background[y][x + w] and not visited[y][x + w]: w += 1`. -/
def compressW (n : Nat) (background visited : List (List Bool)) (y x : Nat) : Nat :=
  1 + growRun (fun xx => getCell background y xx && !getCell visited y xx) n (x + 1)

/-- Height growth of `_background_to_rects`: `h = 1` then grow while the
entire next row segment `[x, x + w)` is set and unvisited. -/
def compressH (n : Nat) (background visited : List (List Bool)) (y x : Nat) : Nat :=
  1 + growRun
    (fun yy => (List.range (compressW n background visited y x)).all
      (fun dx => getCell background yy (x + dx) && !getCell visited yy (x + dx)))
    n (y + 1)

/-- Body of the row-major scan of `_background_to_rects` at scan position
`(y, x)`; the state is the pair `(visited, rects)`.  A set, unvisited cell
grows a `w × h` block, marks it visited and emits
`Rect(x, y, x + w - 1, y + h - 1)`. -/
def compressStep (n : Nat) (background : List (List Bool))
    (st : List (List Bool) × List Rect) (pos : Nat × Nat) :
    List (List Bool) × List Rect :=
  if getCell background pos.1 pos.2 && !getCell st.1 pos.1 pos.2 then
    (markRect st.1 pos.2 pos.1 (compressW n background st.1 pos.1 pos.2)
       (compressH n background st.1 pos.1 pos.2),
     st.2 ++ [⟨(pos.2 : Int), (pos.1 : Int),
               (pos.2 : Int) + (compressW n background st.1 pos.1 pos.2 : Int) - 1,
               (pos.1 : Int) + (compressH n background st.1 pos.1 pos.2 : Int) - 1⟩])
  else
    st

/-- `for y in range(n): for x in range(n):` in row-major order. -/
def scanPositions (n : Nat) : List (Nat × Nat) :=
  (List.range n).flatMap (fun y => (List.range n).map (fun x => (y, x)))

/-- `_background_to_rects` (app.py lines 1202-1236): compress a boolean
background grid into non-overlapping rectangles. -/
def background_to_rects (n : Nat) (background : List (List Bool)) : List Rect :=
  ((scanPositions n).foldl (compressStep n background) (emptyGrid n, [])).2

/-- `_background_from_rects` (app.py lines 1238-1246): paint every rect's
cells that fall inside the `n` × `n` grid. -/
def background_from_rects (n : Nat) (rects : List Rect) : List (List Bool) :=
  rects.foldl (fun bg r =>
    (r.normalized).cells.foldl (fun b c =>
      if 0 ≤ c.1 ∧ c.1 < (n : Int) ∧ 0 ≤ c.2 ∧ c.2 < (n : Int) then
        setCellTrue b c.2.toNat c.1.toNat
      else b) bg)
    (emptyGrid n)

/-- Concrete 16 × 16 example grid (two painted rectangles, the example
scenario of the spec), used to witness the codec theorems. -/
def exampleGrid16 : List (List Bool) :=
  background_from_rects 16 [⟨2, 2, 4, 4⟩, ⟨6, 2, 6, 2⟩]

/-- Two rectangles are disjoint when no grid cell lies in both (verification
device for the claims, not part of the source). -/
def RectDisjoint (r1 r2 : Rect) : Prop :=
  ∀ x y : Int, ¬((x, y) ∈ r1.cells ∧ (x, y) ∈ r2.cells)

/-- Invariant of the `_background_to_rects` scan fold: `visited` (`st.1`) is a
well-formed grid that is exactly the union of the emitted rectangles
(`st.2`), every emitted rectangle covers only in-bounds set cells of
`background`, and the emitted rectangles are pairwise disjoint.
(Verification device, not part of the source.) -/
def CompressInv (n : Nat) (background : List (List Bool))
    (st : List (List Bool) × List Rect) : Prop :=
  WFGrid n st.1 ∧
  (∀ y x : Nat, getCell st.1 y x = true ↔
      ∃ r ∈ st.2, ((x : Int), (y : Int)) ∈ r.cells) ∧
  (∀ r ∈ st.2, ∀ x y : Int, (x, y) ∈ r.cells →
      0 ≤ x ∧ x < (n : Int) ∧ 0 ≤ y ∧ y < (n : Int) ∧
      getCell background y.toNat x.toNat = true) ∧
  List.Pairwise RectDisjoint st.2

/-! ## Tool kinds (gui_builder_app/models.py, class Tool) -/

inductive Tool where
  | background
  | button_standard
  | button_press
  | button_toggle
  | text_entry
  | select_list
  | text_slot
  | item_slot
deriving DecidableEq

/-! ## Sheet packer
(`_plan_component_sheet_layout`, app.py lines 3063-3383: the deterministic
sort, the placement loop with `_can_place` / `_mark` / `_place_in_sheet`,
and `placement_index`). -/

/-- `TILE_PX` (texture_mapping.py line 43; `tile_px` of the shipped
configuration, default 16). -/
def TILE_PX : Nat := 16

/-- `EXPORT_SHEET_PX` (app.py line 48). -/
def EXPORT_SHEET_PX : Nat := 256

/-- `max_px` (app.py lines 3242-3244, with the 512 fallback). -/
def maxPx : Nat := if EXPORT_SHEET_PX < TILE_PX then 512 else EXPORT_SHEET_PX

/-- `sheet_tiles = max(1, max_px // TILE_PX)` (app.py line 3246). -/
def sheetTiles : Nat := max 1 (maxPx / TILE_PX)

/-- The block keys built by `_plan_component_sheet_layout` (app.py lines
3197-3210): `("toggle", w, h, locked, active)`, `("button", w, h)` and
`("component", uid)`. -/
inductive BlockKey where
  | toggle (wTiles hTiles : Nat) (locked active : Bool)
  | button (wTiles hTiles : Nat)
  | component (uid : Int)
deriving DecidableEq

/-- Python `repr` of a Bool. -/
def pyBoolRepr (b : Bool) : String := if b then "True" else "False"

/-- Python `repr` of the block-key tuples (the deterministic final sort
tie-break, app.py line 3240). -/
def BlockKey.pyRepr : BlockKey → String
  | .toggle w h l a =>
      "('toggle', " ++ toString w ++ ", " ++ toString h ++ ", " ++
        pyBoolRepr l ++ ", " ++ pyBoolRepr a ++ ")"
  | .button w h => "('button', " ++ toString w ++ ", " ++ toString h ++ ")"
  | .component uid => "('component', " ++ toString uid ++ ")"

/-- One entry of `block_specs` (app.py lines 3216-3223). -/
structure BlockSpec where
  block_key : BlockKey
  w : Nat
  h : Nat
  w_tiles : Nat
  h_tiles : Nat
deriving DecidableEq

/-- One placement dict (app.py line 3289). -/
structure Placement where
  x : Nat
  y : Nat
  block_key : BlockKey
deriving DecidableEq

/-- One sheet dict: `w`/`h`, placements, and the occupancy grid.  `occ = none`
models the dicts built without an `"occ"` key (the dedicated oversized
sheets, app.py line 3301, and the sheets after `del sh["occ"]`). -/
structure Sheet where
  w : Nat
  h : Nat
  placements : List Placement
  occ : Option (List (List Bool))
deriving DecidableEq

/-- `_new_sheet` (app.py lines 3248-3254). -/
def new_sheet : Sheet :=
  ⟨maxPx, maxPx, [], some (emptyGrid sheetTiles)⟩

/-- `_tiles_needed` (app.py lines 3256-3257). -/
def tiles_needed (px : Nat) : Nat :=
  max 1 ((px + TILE_PX - 1) / TILE_PX)

/-- `_can_place` (app.py lines 3259-3269).  `x0`, `y0` are `range` indices,
hence non-negative: the `< 0` guards of the source are vacuous here. -/
def can_place (occ : List (List Bool)) (x0 y0 w_t h_t : Nat) : Bool :=
  decide (x0 + w_t ≤ sheetTiles) && decide (y0 + h_t ≤ sheetTiles) &&
  (List.range h_t).all (fun dy =>
    (List.range w_t).all (fun dx => !getCell occ (y0 + dy) (x0 + dx)))

/-- The first-fit search of `_place_in_sheet` (app.py lines 3284-3286): the
first `(x0, y0)` in row-major order where the block can be placed.
`range(0, sheet_tiles - h_t + 1)` is empty for `h_t > sheet_tiles`;
truncated Nat subtraction in `sheetTiles + 1 - h_t` yields the same list. -/
def find_spot (occ : List (List Bool)) (w_t h_t : Nat) : Option (Nat × Nat) :=
  (List.range (sheetTiles + 1 - h_t)).findSome? (fun y0 =>
    ((List.range (sheetTiles + 1 - w_t)).find? (fun x0 =>
        can_place occ x0 y0 w_t h_t)).map (fun x0 => (x0, y0)))

/-- `_place_in_sheet` (app.py lines 3277-3292); `_mark` is `markRect`.
Returns the (possibly updated) sheet and the success flag. -/
def place_in_sheet (sheet : Sheet) (it : BlockSpec) : Sheet × Bool :=
  match sheet.occ with
  | none => (sheet, false)  -- callers skip sheets without an occupancy grid
  | some occ =>
    match find_spot occ (tiles_needed it.w) (tiles_needed it.h) with
    | some (x0, y0) =>
      ({ sheet with
         occ := some (markRect occ x0 y0 (tiles_needed it.w) (tiles_needed it.h)),
         placements := sheet.placements ++ [⟨x0 * TILE_PX, y0 * TILE_PX, it.block_key⟩] },
       true)
    | none => (sheet, false)

/-- The `for sh in sheets` loop (app.py lines 3305-3310): skip sheets without
an occupancy grid, try the rest in order, stop at the first success. -/
def place_first : List Sheet → BlockSpec → Option (List Sheet)
  | [], _ => none
  | sh :: rest, it =>
    if sh.occ.isNone then (place_first rest it).map (sh :: ·)
    else
      match place_in_sheet sh it with
      | (sh', true) => some (sh' :: rest)
      | (_, false) => (place_first rest it).map (sh :: ·)

/-- One iteration of `for it in items` (app.py lines 3295-3314): oversized
blocks get a dedicated sheet (no occupancy grid) at (0, 0); otherwise first
fit over the open sheets, else open a new sheet. -/
def pack_step (sheets : List Sheet) (it : BlockSpec) : List Sheet :=
  if it.w > maxPx ∨ it.h > maxPx then
    sheets ++ [⟨it.w, it.h, [⟨0, 0, it.block_key⟩], none⟩]
  else
    match place_first sheets it with
    | some sheets' => sheets'
    | none => sheets ++ [(place_in_sheet new_sheet it).1]

/-- The full placement loop of `_plan_component_sheet_layout`
(app.py lines 3294-3314). -/
def pack_all (items : List BlockSpec) : List Sheet :=
  items.foldl pack_step []

/-- Python code-point string comparison (`repr` tie-break). -/
def pyStrLt : List Char → List Char → Bool
  | [], [] => false
  | [], _ :: _ => true
  | _ :: _, [] => false
  | a :: as, b :: bs =>
    if a.toNat < b.toNat then true
    else if b.toNat < a.toNat then false
    else pyStrLt as bs

/-- Python `<=` on the sort-key tuples `(h*w, h, w, repr(block_key))`
(lexicographic). -/
def sortKeyTupleLe (a b : Nat × Nat × Nat × String) : Bool :=
  if a.1 ≠ b.1 then decide (a.1 < b.1)
  else if a.2.1 ≠ b.2.1 then decide (a.2.1 < b.2.1)
  else if a.2.2.1 ≠ b.2.2.1 then decide (a.2.2.1 < b.2.2.1)
  else pyStrLt a.2.2.2.data b.2.2.2.data || a.2.2.2 == b.2.2.2

/-- The sort key of app.py line 3240. -/
def blockSortKey (it : BlockSpec) : Nat × Nat × Nat × String :=
  (it.h * it.w, it.h, it.w, it.block_key.pyRepr)

/-- `a` may precede `b` in the `reverse=True` (descending) sort order. -/
def blockSortLe (a b : BlockSpec) : Bool :=
  sortKeyTupleLe (blockSortKey b) (blockSortKey a)

/-- Stable insertion into a descending-sorted list: the new element goes
after all elements it does not strictly precede. -/
def insertStable (x : BlockSpec) : List BlockSpec → List BlockSpec
  | [] => [x]
  | y :: ys =>
    if blockSortLe x y && !blockSortLe y x then x :: y :: ys
    else y :: insertStable x ys

/-- `items.sort(key=..., reverse=True)` (app.py lines 3239-3240).  Python's
sort is stable and the key order is total, so the stable-sorted result is
unique; a stable insertion sort computes the same list. -/
def sortBlocks (items : List BlockSpec) : List BlockSpec :=
  items.foldl (fun acc x => insertStable x acc) []

structure PlacementPos where
  sheet : Nat
  x : Nat
  y : Nat
deriving DecidableEq

/-- Python-dict assignment on an association list: replace in place, else
append. -/
def updateAssoc : List (BlockKey × PlacementPos) → BlockKey → PlacementPos →
    List (BlockKey × PlacementPos)
  | [], k, v => [(k, v)]
  | (k', v') :: rest, k, v =>
    if k' = k then (k, v) :: rest else (k', v') :: updateAssoc rest k v

/-- Python-dict lookup on an association list. -/
def lookupAssoc : List (BlockKey × PlacementPos) → BlockKey → Option PlacementPos
  | [], _ => none
  | (k', v') :: rest, k => if k' = k then some v' else lookupAssoc rest k

/-- Sheet enumeration of the `placement_index` construction (app.py lines
3317-3328): `i` is the running `sheet_idx`; keys without a block spec are
skipped; the recorded sheet number is `sheet_idx + 1` (1-based for the JS
consumer). -/
def build_placement_index_go (specs : List BlockSpec) :
    Nat → List Sheet → List (BlockKey × PlacementPos) → List (BlockKey × PlacementPos)
  | _, [], idx => idx
  | i, sh :: rest, idx =>
    build_placement_index_go specs (i + 1) rest
      (sh.placements.foldl (fun idx pl =>
        if (specs.find? (fun s => s.block_key == pl.block_key)).isSome then
          updateAssoc idx pl.block_key ⟨i + 1, pl.x, pl.y⟩
        else idx) idx)

/-- `placement_index` (app.py lines 3317-3328). -/
def build_placement_index (specs : List BlockSpec) (sheets : List Sheet) :
    List (BlockKey × PlacementPos) :=
  build_placement_index_go specs 0 sheets []

/-- `del sh["occ"]` (app.py lines 3330-3332). -/
def strip_occ (sheets : List Sheet) : List Sheet :=
  sheets.map (fun sh => { sh with occ := none })

/-- The packing plan assembled by `_plan_component_sheet_layout` from the
deduplicated block specs (sort, placement loop, placement index, occupancy
stripping; components are ordered separately and carry copies of the
`placement_index` values). -/
structure PackPlan where
  sheets : List Sheet
  placement_index : List (BlockKey × PlacementPos)
deriving DecidableEq

def plan_component_sheet_layout (specs : List BlockSpec) : PackPlan :=
  let items := sortBlocks specs
  let sheets := pack_all items
  { sheets := strip_occ sheets,
    placement_index := build_placement_index specs sheets }

/-- The per-entry data the planner's block-spec collection reads (app.py
lines 3128-3228) for one manifest entry: page id, entry id, uid, tool, tile
size, `locked`/`active` flags, and the value of
`_entry_requires_component_export` (which depends on the atlas configuration
`texture_mapping.json`, data that is not code under src/, so it is carried
as a field of the snapshot). -/
structure EntrySnap where
  pid : Int
  entry_id : Int
  uid : Int
  tool : Tool
  w_tiles : Nat
  h_tiles : Nat
  locked : Bool
  active : Bool
  needs_texture : Bool
deriving DecidableEq

/-- `uid = int(ent.uid or 0); if uid <= 0: uid = int(ent.entry_id)`
(app.py lines 3147-3150). -/
def effective_uid (e : EntrySnap) : Int :=
  if e.uid ≤ 0 then e.entry_id else e.uid

/-- Block-key selection (app.py lines 3194-3210). -/
def block_key_for (group_buttons_by_size : Bool) (e : EntrySnap) : BlockKey :=
  if (e.tool = Tool.button_standard ∨ e.tool = Tool.button_toggle) ∧ group_buttons_by_size then
    if e.tool = Tool.button_toggle then
      .toggle e.w_tiles e.h_tiles e.locked e.active
    else
      .button e.w_tiles e.h_tiles
  else
    .component (effective_uid e)

/-- `block_specs` collection (app.py lines 3145-3228): skip zero-sized
entries, skip entries that need no texture, dedupe by block key keeping the
first spec (dict insertion order); the exported block is 2×2 variants, so
the block pixel size doubles the entry pixel size. -/
def collect_step (group_buttons_by_size : Bool) (specs : List BlockSpec) (e : EntrySnap) :
    List BlockSpec :=
  if 0 < e.w_tiles * TILE_PX ∧ 0 < e.h_tiles * TILE_PX ∧ e.needs_texture = true then
    if (specs.find? (fun s =>
        s.block_key == block_key_for group_buttons_by_size e)).isSome then
      specs
    else
      specs ++ [⟨block_key_for group_buttons_by_size e,
                 e.w_tiles * TILE_PX * 2, e.h_tiles * TILE_PX * 2,
                 e.w_tiles, e.h_tiles⟩]
  else specs

def collect_block_specs (group_buttons_by_size : Bool) (entries : List EntrySnap) :
    List BlockSpec :=
  entries.foldl (collect_step group_buttons_by_size) []

/-- `_plan_component_sheet_layout` on a snapshot: collect the block specs
under the grouping policy, then build the packing plan. -/
def plan_for_entries (group_buttons_by_size : Bool) (entries : List EntrySnap) : PackPlan :=
  plan_component_sheet_layout (collect_block_specs group_buttons_by_size entries)

/-- The tile rectangle a placement occupies, read back from the placement
and the block specs (pixel coordinates are tile-aligned). -/
structure TileRect where
  x0 : Nat
  y0 : Nat
  w : Nat
  h : Nat
deriving DecidableEq

def placement_tile_rect (specs : List BlockSpec) (pl : Placement) : Option TileRect :=
  (specs.find? (fun s => s.block_key == pl.block_key)).map
    (fun s => ⟨pl.x / TILE_PX, pl.y / TILE_PX, tiles_needed s.w, tiles_needed s.h⟩)

def InTileRect (r : TileRect) (tx ty : Nat) : Prop :=
  r.x0 ≤ tx ∧ tx < r.x0 + r.w ∧ r.y0 ≤ ty ∧ ty < r.y0 + r.h

/-- Two placements do not overlap: their tile rectangles (when their keys
have specs) share no tile. -/
def PlacementsDisjoint (specs : List BlockSpec) (p q : Placement) : Prop :=
  ∀ trp trq : TileRect, placement_tile_rect specs p = some trp →
    placement_tile_rect specs q = some trq →
    ∀ tx ty : Nat, ¬(InTileRect trp tx ty ∧ InTileRect trq tx ty)

/-- Invariant of the placement loop, per sheet (verification device).
A sheet without occupancy grid is a dedicated oversized sheet holding one
block at (0, 0); a sheet with occupancy grid is well formed, every placement
records a tile-aligned position whose tile rectangle (recovered through
`placement_tile_rect`) is in bounds and fully marked in the grid, and the
placements are pairwise disjoint. -/
def SheetInv (specs : List BlockSpec) (sh : Sheet) : Prop :=
  match sh.occ with
  | none => ∃ it ∈ specs, (it.w > maxPx ∨ it.h > maxPx) ∧
      sh.placements = [⟨0, 0, it.block_key⟩]
  | some occ =>
      WFGrid sheetTiles occ ∧
      (∀ pl ∈ sh.placements, ∃ tr : TileRect,
        placement_tile_rect specs pl = some tr ∧
        pl.x = tr.x0 * TILE_PX ∧ pl.y = tr.y0 * TILE_PX ∧
        tr.x0 + tr.w ≤ sheetTiles ∧ tr.y0 + tr.h ≤ sheetTiles ∧
        ∀ dy dx : Nat, dy < tr.h → dx < tr.w →
          getCell occ (tr.y0 + dy) (tr.x0 + dx) = true) ∧
      sh.placements.Pairwise (PlacementsDisjoint specs)

/-- Correctness statement for one `placement_index` entry (verification
device): the recorded sheet number is 1 plus the zero-based position of a
sheet whose placements contain the block key at the recorded pixel
position. -/
def IndexEntryOk (sheets : List Sheet) (e : BlockKey × PlacementPos) : Prop :=
  ∃ i, ∃ h : i < sheets.length, e.2.sheet = i + 1 ∧
    ∃ pl ∈ (sheets.get ⟨i, h⟩).placements,
      pl.block_key = e.1 ∧ e.2.x = pl.x ∧ e.2.y = pl.y

/-- Concrete entry snapshot used to witness the packer theorems: one 2×1
standard button and one 2×2 toggle button. -/
def exampleEntries : List EntrySnap :=
  [⟨1, 1, 1, Tool.button_standard, 2, 1, false, false, true⟩,
   ⟨1, 2, 2, Tool.button_toggle, 2, 2, false, true, true⟩]

/-- First sheet of the example plan (C3 witness input). -/
def exampleSheet : Sheet :=
  (pack_all (sortBlocks (collect_block_specs true exampleEntries))).headD new_sheet

/-- Concrete block specs with one oversized block (C8/C10 witness input). -/
def examplePackSpecs : List BlockSpec :=
  [⟨.component 9, 600, 20, 1, 1⟩,
   ⟨.component 1, 16, 16, 1, 1⟩,
   ⟨.component 2, 32, 32, 2, 2⟩]

/-! ## CTM resolver (gui_builder_app/texture_mapping.py) -/

/-- `ctm_tile_offset` (texture_mapping.py lines 108-178): map a 4-neighbour
mask (bit0=N, bit1=E, bit2=S, bit3=W) into a 4×4 `(dx, dy)` tile offset.
The optional `ctm_mask_to_offset` override is read from the
`texture_mapping.json` configuration file (data, not code; the function falls
through to the structured layout below when the table defines no entry), so
the structured layout is the function's behaviour. -/
def ctm_tile_offset (mask : Nat) : Nat × Nat :=
  let m := mask &&& 0xF
  let n := m &&& 0x1 != 0
  let e := m &&& 0x2 != 0
  let s := m &&& 0x4 != 0
  let w := m &&& 0x8 != 0
  -- No neighbors -> single
  if !(n || e || s || w) then (0, 0)
  -- Pure horizontal strip (no vertical neighbors)
  else if !(n || s) && (e || w) then
    if e && w then (2, 0) else if e then (1, 0) else (3, 0)
  -- Pure vertical strip (no horizontal neighbors)
  else if !(e || w) && (n || s) then
    if n && s then (0, 2) else if s then (0, 1) else (0, 3)
  -- 2D nine-slice for rectangles
  else
    (if w && e then 2 else if w then 3 else 1,
     if n && s then 2 else if n then 3 else 1)

/-- The offset mapping as described by the spec (claim C9), written from the
spec's words: mask 0 → (0,0); otherwise dx is 1/2/3 for
east-only/both/west-only (0 with no horizontal neighbour) and dy is 1/2/3
for south-only/both/north-only (0 with no vertical neighbour). -/
def ctm_offset_spec (mask : Nat) : Nat × Nat :=
  let m := mask &&& 0xF
  let n := m &&& 0x1 != 0
  let e := m &&& 0x2 != 0
  let s := m &&& 0x4 != 0
  let w := m &&& 0x8 != 0
  if !(n || e || s || w) then (0, 0)
  else
    ((if e && w then 2 else if e then 1 else if w then 3 else 0 : Nat),
     (if n && s then 2 else if s then 1 else if n then 3 else 0 : Nat))

/-! ## JSON values and Python coercions (for load_from_json_dict) -/

/-- JSON values as produced by `json.load` (floats do not occur in the
documents the app writes and are not modelled).  Object keys are unique, as
in any dict obtained from `json.load`. -/
inductive J where
  | null
  | bool (b : Bool)
  | int (n : Int)
  | str (s : String)
  | arr (l : List J)
  | obj (l : List (String × J))

def J.isNull : J → Bool
  | .null => true
  | _ => false

/-- `d.get(key)` on a JSON object: `none` when the key is missing (a stored
JSON `null` is `some J.null`). -/
def jGet : List (String × J) → String → Option J
  | [], _ => none
  | (k, v) :: rest, key => if k = key then some v else jGet rest key

/-- Python-dict assignment (replace in place, else append); also used for
the `pages` and `entries` dicts of the model. -/
def dictSet {α β : Type} [DecidableEq α] : List (α × β) → α → β → List (α × β)
  | [], k, v => [(k, v)]
  | (k', v') :: rest, k, v =>
    if k' = k then (k, v) :: rest else (k', v') :: dictSet rest k v

/-- Digit run of Python `int(str)`. -/
def pyDigitsAux : List Char → Nat → Option Nat
  | [], acc => some acc
  | c :: rest, acc =>
    if c.isDigit then pyDigitsAux rest (acc * 10 + (c.toNat - 48)) else none

/-- Python `int(s)` for a string: optional sign then decimal digits
(surrounding whitespace and underscore separators, which Python also
accepts, do not occur in the app's documents and are not modelled). -/
def pyParseInt (s : String) : Option Int :=
  match s.data with
  | [] => none
  | '-' :: rest =>
    if rest.isEmpty then none else (pyDigitsAux rest 0).map (fun n => -(n : Int))
  | '+' :: rest =>
    if rest.isEmpty then none else (pyDigitsAux rest 0).map (fun n => (n : Int))
  | l => (pyDigitsAux l 0).map (fun n => (n : Int))

/-- Python `int(x)` on a JSON value; `none` models a raised
TypeError/ValueError. -/
def pyInt : J → Option Int
  | .bool b => some (if b then 1 else 0)
  | .int n => some n
  | .str s => pyParseInt s
  | _ => none

/-- Python truthiness of a JSON value. -/
def pyTruthy : J → Bool
  | .null => false
  | .bool b => b
  | .int n => n != 0
  | .str s => s != ""
  | .arr l => !l.isEmpty
  | .obj l => !l.isEmpty

/-- Python `str(x)` of a JSON value.  The container placeholders stand for
the Python reprs, which the loader only ever compares against tool names
(they can never be equal to one) or stores verbatim as a label. -/
def pyStr : J → String
  | .null => "None"
  | .bool b => if b then "True" else "False"
  | .int n => toString n
  | .str s => s
  | .arr _ => "[list]"
  | .obj _ => "[dict]"

/-- `x == k` in Python for an int literal `k`: numeric equality, with
booleans equal to 0/1; every other JSON value compares unequal. -/
def pyEqInt (v : Option J) (k : Int) : Bool :=
  match v with
  | some (.int n) => n == k
  | some (.bool b) => (if b then (1 : Int) else 0) == k
  | _ => false

/-- `str(obj.get("tool") or "")` (app.py line 2638). -/
def toolStr (v : Option J) : String :=
  match v with
  | none => ""
  | some x => if pyTruthy x then pyStr x else ""

/-- `Tool(raw_tool)` (models.py `class Tool(str, Enum)`). -/
def Tool.ofString : String → Option Tool
  | "background" => some .background
  | "button_standard" => some .button_standard
  | "button_press" => some .button_press
  | "button_toggle" => some .button_toggle
  | "text_entry" => some .text_entry
  | "select_list" => some .select_list
  | "text_slot" => some .text_slot
  | "item_slot" => some .item_slot
  | _ => none

/-! ## The in-memory model touched by load_from_json_dict -/

/-- `Entry` (models.py). -/
structure Entry where
  entry_id : Int
  tool : Tool
  rect : Rect
  uid : Int
  active : Bool
  label : String
  meta : List (String × J)

/-- `PageState` (models.py); `entries` and the top-level `pages` are
insertion-ordered dicts, embedded as association lists. -/
structure PageState where
  page_id : Int
  background : List (List Bool)
  entries : List (Int × Entry)
  cell_to_entry : List (List (Option Int))
  next_entry_id : Int

/-- The model fields `load_from_json_dict` reads or writes: the pages map,
`grid_n`, `next_uid` and `start_page_id`.  (`cell_px` and the `gui_name`
editor widget variable are editor geometry/UI state.) -/
structure AppModel where
  pages : List (Int × PageState)
  grid_n : Nat
  next_uid : Int
  start_page_id : Int

def emptyCellGrid (n : Nat) : List (List (Option Int)) :=
  List.replicate n (List.replicate n none)

/-- `st.cell_to_entry[y][x] = eid` -/
def setCellEntry (g : List (List (Option Int))) (y x : Nat) (eid : Int) :
    List (List (Option Int)) :=
  g.set y (((g[y]?).getD []).set x (some eid))

/-- The cell loop of app.py lines 2667-2669. -/
def fillCells (n : Nat) (cg : List (List (Option Int))) (r : Rect) (eid : Int) :
    List (List (Option Int)) :=
  r.cells.foldl (fun g c =>
    if 0 ≤ c.1 ∧ c.1 < (n : Int) ∧ 0 ≤ c.2 ∧ c.2 < (n : Int) then
      setCellEntry g c.2.toNat c.1.toNat eid
    else g) cg

/-! ## UID allocation (app.py lines 2565-2593) -/

structure UidSt where
  used : List Int
  counter : Int
  maxUid : Int

/-- `while uid_counter in used_uids: uid_counter += 1`, with structural fuel.
`used.length + 1` steps always suffice: the used set holds at most
`used.length` distinct values, so one of the `used.length + 1` candidates
`c, c+1, ...` is free (see `firstFree_not_mem`). -/
def firstFreeAux : Nat → List Int → Int → Int
  | 0, _, c => c
  | fuel + 1, used, c =>
    if c ∈ used then firstFreeAux fuel used (c + 1) else c

def firstFree (used : List Int) (c : Int) : Int :=
  firstFreeAux (used.length + 1) used c

/-- `_alloc_uid` (app.py lines 2574-2593).  NOTE: on the counter path the
source returns `max_uid` — the maximum id seen so far — not the counter
value it just marked used (line 2593 `return max_uid`). -/
def alloc_uid (st : UidSt) (requested : Option J) : Int × UidSt :=
  let rid := (requested.bind pyInt).getD 0
  if rid > 0 ∧ rid ∉ st.used then
    (rid, ⟨rid :: st.used, st.counter, max st.maxUid rid⟩)
  else
    let c := firstFree st.used st.counter
    let maxUid' := max st.maxUid c
    (maxUid', ⟨c :: st.used, c + 1, maxUid'⟩)

/-! ## load_from_json_dict (app.py lines 2524-2687) -/

/-- One `background_rects` element (app.py lines 2606-2613): non-dicts and
any KeyError / int() failure in `Rect(int(robj["x0"]), ...)` are skipped. -/
def parseRectObj (v : J) : Option Rect :=
  match v with
  | .obj kvs =>
    match jGet kvs "x0", jGet kvs "y0", jGet kvs "x1", jGet kvs "y1" with
    | some a, some b, some c, some d =>
      match pyInt a, pyInt b, pyInt c, pyInt d with
      | some x0, some y0, some x1, some y1 => some ⟨x0, y0, x1, y1⟩
      | _, _, _, _ => none
    | _, _, _, _ => none
  | _ => none

/-- One legacy background row: a list of length `n`. -/
def rowWF (n : Nat) (r : J) : Bool :=
  match r with
  | .arr row => row.length == n
  | _ => false

/-- The JSON form of one rectangle as serialised by the app. -/
def rect_to_json (r : Rect) : J :=
  .obj [("x0", .int r.x0), ("y0", .int r.y0), ("x1", .int r.x1), ("y1", .int r.y1)]

/-- The per-page background branch (app.py lines 2601-2622): a
`background_rects` list is decompressed; otherwise the legacy boolean grid
must be `grid_n` × `grid_n`. -/
def parseBackground (n : Nat) (pkvs : List (String × J)) :
    Except String (List (List Bool)) :=
  match jGet pkvs "background_rects" with
  | some (.arr rl) => .ok (background_from_rects n (rl.filterMap parseRectObj))
  | _ =>
    match jGet pkvs "background" with
    | some (.arr rows) =>
      if rows.length = n ∧ rows.all (rowWF n) then
        .ok (rows.map (fun r => match r with | .arr row => row.map pyTruthy | _ => []))
      else .error "background has invalid dimensions for page."
    | _ => .error "background has invalid dimensions for page."

/-- `dict(obj.get("meta") or {})` (app.py line 2663): a falsy value yields
an empty dict, a dict is copied, an iterable of key/value pairs converts
(later duplicates win), and any other truthy value raises (`none`). -/
def metaPairs : List J → Option (List (String × J)) → Option (List (String × J))
  | [], acc => acc
  | .arr [.str k, v] :: rest, some m => metaPairs rest (some (dictSet m k v))
  | _, _ => none

def metaOf (v : Option J) : Option (List (String × J)) :=
  match v with
  | none => some []
  | some x =>
    if !pyTruthy x then some []
    else match x with
      | .obj l => some l
      | .arr l => metaPairs l (some [])
      | _ => none

/-- The entry loop (app.py lines 2636-2669); the running state is the
entries dict, the cell lookup grid, `max_id` and the uid bookkeeping. -/
def loadEntriesGo (n : Nat) :
    List J → List (Int × Entry) → List (List (Option Int)) → Int → UidSt →
    Except String (List (Int × Entry) × List (List (Option Int)) × Int × UidSt)
  | [], es, cg, maxId, st => .ok (es, cg, maxId, st)
  | o :: rest, es, cg, maxId, st =>
    match o with
    | .obj okvs =>
      match (if toolStr (jGet okvs "tool") = "button_press" then some Tool.button_standard
             else Tool.ofString (toolStr (jGet okvs "tool"))) with
      | none => loadEntriesGo n rest es cg maxId st
      | some tool =>
        match jGet okvs "rect" with
        | none => .error "KeyError: rect"
        | some rv =>
          match parseRectObj rv with
          | none => .error "TypeError: rect"
          | some rect0 =>
            match jGet okvs "id" with
            | none => .error "KeyError: id"
            | some idv =>
              match pyInt idv with
              | none => .error "TypeError: id"
              | some eid =>
                match alloc_uid st (jGet okvs "uid") with
                | (uid, st') =>
                  match metaOf (jGet okvs "meta") with
                  | none => .error "TypeError: meta"
                  | some meta =>
                    loadEntriesGo n rest
                      (dictSet es eid
                        ⟨eid, tool, rect0.normalized, uid,
                         pyTruthy ((jGet okvs "active").getD (.bool false)),
                         pyStr ((jGet okvs "label").getD (.str "")),
                         meta⟩)
                      (fillCells n cg rect0.normalized eid)
                      (max maxId eid) st'
    | _ => .error "AttributeError: entry is not an object."

/-- `entries = pobj.get("entries", [])` plus the list check
(app.py lines 2624-2626). -/
def entriesListOf (pkvs : List (String × J)) : Except String (List J) :=
  match (jGet pkvs "entries").getD (.arr []) with
  | .arr l => .ok l
  | _ => .error "entries must be a list for page."

/-- One iteration of `for pobj in pages` (app.py lines 2595-2672),
producing the page id, the built `PageState` and the updated uid state. -/
def loadOnePage (n : Nat) (pobj : J) (st : UidSt) :
    Except String (Int × PageState × UidSt) :=
  match pobj with
  | .obj pkvs =>
    match pyInt ((jGet pkvs "page_id").getD (.int 1)) with
    | none => .error "TypeError: page_id"
    | some page_id =>
      match parseBackground n pkvs with
      | .error e => .error e
      | .ok background =>
        match entriesListOf pkvs with
        | .error e => .error e
        | .ok objs =>
          match loadEntriesGo n objs [] (emptyCellGrid n) 0 st with
          | .error e => .error e
          | .ok (es, cg, maxId, st') =>
            .ok (page_id, ⟨page_id, background, es, cg, maxId + 1⟩, st')
  | _ => .error "pages contains an invalid page object."

/-- The pages loop: a failing page aborts the load, leaving the pages
loaded so far in the model (`self.pages[page_id] = st` runs per page). -/
def loadPagesGo (n : Nat) :
    List J → AppModel → UidSt → AppModel × UidSt × Option String
  | [], m, st => (m, st, none)
  | pobj :: rest, m, st =>
    match loadOnePage n pobj st with
    | .error e => (m, st, some e)
    | .ok (pid, pageSt, st') =>
      loadPagesGo n rest { m with pages := dictSet m.pages pid pageSt } st'

/-- `uid_counter = max(1, int(data.get("next_uid", 1)))` with the
try/except fallback to 1 (app.py lines 2567-2571). -/
def initial_counter (kvs : List (String × J)) : Int :=
  match jGet kvs "next_uid" with
  | none => 1
  | some v =>
    match pyInt v with
    | some k => max 1 k
    | none => 1

/-- Ascending insertion sort on ints (`sorted(self.pages.keys())`). -/
def insertInt (x : Int) : List Int → List Int
  | [] => [x]
  | y :: ys => if x ≤ y then x :: y :: ys else y :: insertInt x ys

def sortInts (l : List Int) : List Int :=
  l.foldl (fun acc x => insertInt x acc) []

/-- `start_page_id` resolution (app.py lines 2677-2684). -/
def resolve_start (kvs : List (String × J)) (pages : List (Int × PageState)) : Int :=
  let start0 : Int :=
    match jGet kvs "start_page_id" with
    | none => 1
    | some v => (pyInt v).getD 1
  if (pages.map Prod.fst).contains start0 then start0
  else (sortInts (pages.map Prod.fst)).headD 1

/-- `legacy_entries if legacy_entries is not None else []` (app.py
line 2553). -/
def legacy_entries_val (kvs : List (String × J)) : J :=
  match jGet kvs "entries" with
  | none => .arr []
  | some v => if v.isNull then .arr [] else v

/-- The backward-compatibility single-page wrapper (app.py lines
2547-2555). -/
def wrapper_kvs (kvs : List (String × J)) : List (String × J) :=
  [("page_id", .int 1),
   ("background", (jGet kvs "background").getD .null),
   ("entries", legacy_entries_val kvs)]

def wrapper_page (kvs : List (String × J)) : J :=
  .obj (wrapper_kvs kvs)

/-- `pages is None`: the key is missing or holds JSON null. -/
def pagesIsNone (kvs : List (String × J)) : Bool :=
  match jGet kvs "pages" with
  | none => true
  | some v => v.isNull

/-- `grid_n` as validated (16 or 32). -/
def grid_n_of (kvs : List (String × J)) : Nat :=
  if pyEqInt (jGet kvs "grid_n") 16 then 16 else 32

/-- The validation phase of `load_from_json_dict` that runs before any
model mutation (app.py lines 2524-2558): root object, version, grid size,
single-page fallback and the non-empty pages-list check. -/
def validate_header (data : J) :
    Except String (List (String × J) × Nat × List J) :=
  match data with
  | .obj kvs =>
    if !(pyEqInt (jGet kvs "version") 1 || pyEqInt (jGet kvs "version") 2 ||
         pyEqInt (jGet kvs "version") 3) then
      .error "Unsupported JSON version (expected 1, 2, or 3)."
    else if !(pyEqInt (jGet kvs "grid_n") 16 || pyEqInt (jGet kvs "grid_n") 32) then
      .error "grid_n must be 16 or 32."
    else if pagesIsNone kvs then
      .ok (kvs, grid_n_of kvs, [wrapper_page kvs])
    else
      match jGet kvs "pages" with
      | some (.arr l) =>
        if l.isEmpty then .error "pages must be a non-empty list."
        else .ok (kvs, grid_n_of kvs, l)
      | _ => .error "pages must be a non-empty list."
  | _ => .error "Invalid JSON root (expected object)."

/-- Everything after the validation phase: the mutation of `grid_n`, the
clearing of the pages map (app.py lines 2560-2563), the pages loop, and
the `next_uid` / `start_page_id` updates. -/
def load_body (m : AppModel) (kvs : List (String × J)) (gridN : Nat)
    (pagesList : List J) : AppModel × Option String :=
  match loadPagesGo gridN pagesList { m with grid_n := gridN, pages := [] }
      ⟨[], initial_counter kvs, 0⟩ with
  | (m2, _, some e) => (m2, some e)
  | (m2, stF, none) =>
    ({ m2 with next_uid := max stF.counter (stF.maxUid + 1),
               start_page_id := resolve_start kvs m2.pages }, none)

/-- `load_from_json_dict` (app.py lines 2524-2687).  The result pairs the
model state when the call returns or raises with the raised error, if any
(the `gui_name` StringVar and `cell_px` are editor state, out of the
modelled fields). -/
def load_from_json_dict (m : AppModel) (data : J) : AppModel × Option String :=
  match validate_header data with
  | .error e => (m, some e)
  | .ok (kvs, gridN, pagesList) => load_body m kvs gridN pagesList

/-- All uids of all entries across all pages, in page/entry order. -/
def modelUids (m : AppModel) : List Int :=
  m.pages.flatMap (fun p => p.2.entries.map (fun e => e.2.uid))

/-- The legacy raw boolean grid, parsed
(`[[bool(x) for x in row] for row in legacy_bg]`). -/
def legacy_parsed_grid (kvs : List (String × J)) : List (List Bool) :=
  match jGet kvs "background" with
  | some (.arr rows) =>
    rows.map (fun r => match r with | .arr row => row.map pyTruthy | _ => [])
  | _ => []

/-- Modelled from the spec: the page object of the "rectangle-compressed,
multi-page-wrapped version-3 equivalent" of a legacy document — the single
implicit page as page 1, with `background_rects` produced by the compressor
from the legacy grid, and the same entries. -/
def v3_page_kvs (kvs : List (String × J)) : List (String × J) :=
  [("page_id", .int 1),
   ("background_rects",
     .arr ((background_to_rects (grid_n_of kvs) (legacy_parsed_grid kvs)).map rect_to_json)),
   ("entries", legacy_entries_val kvs)]

def v3_page (kvs : List (String × J)) : J :=
  .obj (v3_page_kvs kvs)

/-- Modelled from the spec: the version-3 equivalent document — version set
to 3 and a `pages` list wrapping the single page; all other top-level keys
are kept. -/
def legacy_to_v3 (kvs : List (String × J)) : J :=
  .obj (dictSet (dictSet kvs "version" (.int 3)) "pages" (.arr [v3_page kvs]))

/-- A well-formed entry object: loading it cannot raise (its `rect` and
`id` parse, and its `meta` converts); its tool may still be unknown, in
which case the loader skips it. -/
def entryWF (o : J) : Bool :=
  match o with
  | .obj okvs =>
    (match jGet okvs "rect" with
     | some rv => (parseRectObj rv).isSome
     | none => false) &&
    (match jGet okvs "id" with
     | some iv => (pyInt iv).isSome
     | none => false) &&
    (metaOf (jGet okvs "meta")).isSome
  | _ => false

/-- A legacy raw-grid page inside a `pages` wrapper: no `background_rects`,
a raw boolean `background` of the right dimensions, a parsable `page_id`,
and well-formed entries (so loading it cannot raise). -/
def legacyPageWF (n : Nat) (pobj : J) : Bool :=
  match pobj with
  | .obj pkvs =>
    (jGet pkvs "background_rects").isNone &&
    (match jGet pkvs "background" with
     | some (.arr rows) => rows.length == n && rows.all (rowWF n)
     | _ => false) &&
    (pyInt ((jGet pkvs "page_id").getD (.int 1))).isSome &&
    (match (jGet pkvs "entries").getD (.arr []) with
     | .arr objs => objs.all entryWF
     | _ => false)
  | _ => false

/-- Modelled from the spec: the rectangle-compressed version-3 equivalent of
one raw-grid page — the same `page_id` and entries, with the raw boolean
grid replaced by the `background_rects` the compressor produces from it. -/
def v3_page_of (n : Nat) (pobj : J) : J :=
  match pobj with
  | .obj pkvs =>
    .obj [("page_id", (jGet pkvs "page_id").getD (.int 1)),
          ("background_rects",
            .arr ((background_to_rects n (legacy_parsed_grid pkvs)).map rect_to_json)),
          ("entries", (jGet pkvs "entries").getD (.arr []))]
  | _ => pobj

/-- Modelled from the spec: the version-3 equivalent of a legacy document
that already carries a `pages` wrapper with raw per-page boolean grids —
version set to 3 and every page rectangle-compressed; all other top-level
keys are kept. -/
def legacy_wrapped_to_v3 (kvs : List (String × J)) : J :=
  .obj (dictSet (dictSet kvs "version" (.int 3)) "pages"
    (match jGet kvs "pages" with
     | some (.arr l) => .arr (l.map (v3_page_of (grid_n_of kvs)))
     | _ => .arr []))

/-! ## Concrete loader inputs (counterexamples / witnesses) -/

/-- A model with one page on a 32 grid (C4 counterexample start state). -/
def exampleModel : AppModel :=
  ⟨[(1, ⟨1, emptyGrid 32, [], emptyCellGrid 32, 1⟩)], 32, 5, 1⟩

/-- A document that passes the header validation but fails per-page
validation (no background at all for page 1). -/
def badPageDoc : J :=
  .obj [("version", .int 3), ("grid_n", .int 16),
        ("pages", .arr [.obj [("page_id", .int 1)]])]

def emptyModel : AppModel := ⟨[], 16, 1, 1⟩

/-- A document on which `_alloc_uid` hands out a duplicate uid: entry 1
stores uid 100 explicitly; entry 2 stores none, so the allocator marks
counter value 1 as used but returns `max_uid = 100`. -/
def dupUidDoc : J :=
  .obj [("version", .int 3), ("grid_n", .int 16),
        ("pages", .arr [.obj [
          ("page_id", .int 1),
          ("background_rects", .arr []),
          ("entries", .arr [
            .obj [("id", .int 1), ("tool", .str "button_standard"),
                  ("rect", .obj [("x0", .int 0), ("y0", .int 0),
                                 ("x1", .int 0), ("y1", .int 0)]),
                  ("uid", .int 100)],
            .obj [("id", .int 2), ("tool", .str "button_standard"),
                  ("rect", .obj [("x0", .int 1), ("y0", .int 0),
                                 ("x1", .int 1), ("y1", .int 0)])]])]])]

/-- A concrete legacy (version-1, raw-grid, no pages wrapper) document:
a 16 × 16 background with the top row painted, one standard button and a
stored `next_uid`. -/
def legacyDocKvs : List (String × J) :=
  [("version", .int 1), ("grid_n", .int 16),
   ("background", .arr (J.arr (List.replicate 16 (J.bool true)) ::
      List.replicate 15 (J.arr (List.replicate 16 (J.bool false))))),
   ("entries", .arr [
      .obj [("id", .int 1), ("tool", .str "button_standard"),
            ("rect", .obj [("x0", .int 2), ("y0", .int 3),
                           ("x1", .int 4), ("y1", .int 4)]),
            ("uid", .int 3), ("label", .str "go")]]),
   ("next_uid", .int 7), ("start_page_id", .int 1)]

/-- A concrete legacy (version-2) document that does carry a `pages`
wrapper, whose two pages hold raw boolean background grids and no
`background_rects`. -/
def wrappedLegacyDocKvs : List (String × J) :=
  [("version", .int 2), ("grid_n", .int 16),
   ("pages", .arr [
      .obj [("page_id", .int 1),
            ("background",
              .arr (List.replicate 16 (J.arr (List.replicate 16 (J.bool false))))),
            ("entries", .arr [
               .obj [("id", .int 1), ("tool", .str "item_slot"),
                     ("rect", .obj [("x0", .int 1), ("y0", .int 1),
                                    ("x1", .int 2), ("y1", .int 2)]),
                     ("uid", .int 4)]])],
      .obj [("page_id", .int 2),
            ("background", .arr (J.arr (List.replicate 16 (J.bool true)) ::
               List.replicate 15 (J.arr (List.replicate 16 (J.bool false)))))]]),
   ("next_uid", .int 9)]

/-- A document rejected by the up-front validation (bad version). -/
def badVersionDoc : J := .obj [("version", .int 7)]

/-! # THEOREMS -/

/-! ## Claim C9 -/

/-- C9: CTM offset mapping.  `ctm_tile_offset` is a pure function of the
4-bit mask (it only depends on `mask &&& 0xF`), and on the 16 masks it
realises exactly the layout the spec describes: mask 0 → (0,0);
horizontal-only masks → (1,0)/(2,0)/(3,0) for east-only/E+W/west-only;
vertical-only masks → (0,1)/(0,2)/(0,3) for south-only/N+S/north-only;
mixed masks → the nine-slice with dx = 1/2/3 (east-only/both/west-only) and
dy = 1/2/3 (south-only/both/north-only), in particular mask 0b1111 → (2,2). -/
theorem ctm_tile_offset_matches_spec :
    (∀ mask : Nat, ctm_tile_offset mask = ctm_tile_offset (mask &&& 0xF)) ∧
    (∀ m : Fin 16, ctm_tile_offset m.val = ctm_offset_spec m.val) ∧
    ctm_tile_offset 15 = (2, 2) := by
  refine ⟨?_, by decide, by decide⟩
  intro mask
  unfold ctm_tile_offset
  rw [Nat.and_assoc]
  rw [show ((0xF : Nat) &&& 0xF) = 0xF from rfl]

/-! ## growRun lemmas -/

theorem growRunAux_ok {ok : Nat → Bool} :
    ∀ {fuel p i : Nat}, i < growRunAux ok fuel p → ok (p + i) = true ∧ i < fuel := by
  intro fuel
  induction fuel with
  | zero => intro p i hi; simp [growRunAux] at hi
  | succ fuel ih =>
    intro p i hi
    unfold growRunAux at hi
    by_cases hok : ok p
    · rw [if_pos hok] at hi
      match i with
      | 0 => exact ⟨by simpa using hok, by omega⟩
      | j + 1 =>
        have hj : j < growRunAux ok fuel (p + 1) := by omega
        obtain ⟨h1, h2⟩ := ih hj
        refine ⟨?_, by omega⟩
        have : p + 1 + j = p + (j + 1) := by omega
        rwa [this] at h1
    · rw [if_neg hok] at hi
      omega

theorem growRunAux_le {ok : Nat → Bool} :
    ∀ {fuel p : Nat}, growRunAux ok fuel p ≤ fuel := by
  intro fuel
  induction fuel with
  | zero => intro p; simp [growRunAux]
  | succ fuel ih =>
    intro p
    unfold growRunAux
    by_cases hok : ok p
    · rw [if_pos hok]
      have := @ih (p + 1)
      omega
    · rw [if_neg hok]
      omega

theorem growRun_ok {ok : Nat → Bool} {stop p i : Nat} (hi : i < growRun ok stop p) :
    ok (p + i) = true ∧ p + i < stop := by
  obtain ⟨h1, h2⟩ := growRunAux_ok hi
  exact ⟨h1, by omega⟩

theorem growRun_le {ok : Nat → Bool} {stop p : Nat} (hp : p ≤ stop) :
    p + growRun ok stop p ≤ stop := by
  have := @growRunAux_le ok (stop - p) p
  unfold growRun
  omega

/-! ## Grid lemmas -/

theorem WFGrid.row_len {n : Nat} {g : List (List Bool)} (h : WFGrid n g)
    {y : Nat} (hy : y < n) : ((g[y]?).getD []).length = n := by
  obtain ⟨hlen, hrows⟩ := h
  have hy' : y < g.length := by omega
  rw [List.getElem?_eq_getElem hy']
  exact hrows _ (List.getElem_mem hy')

theorem emptyGrid_wf (n : Nat) : WFGrid n (emptyGrid n) := by
  constructor
  · simp [emptyGrid]
  · intro row hrow
    rw [List.eq_of_mem_replicate (show row ∈ List.replicate n (List.replicate n false) from hrow)]
    simp

theorem getCell_emptyGrid (n y x : Nat) : getCell (emptyGrid n) y x = false := by
  unfold getCell emptyGrid
  rw [List.getElem?_replicate]
  by_cases hy : y < n
  · rw [if_pos hy]
    simp only [Option.getD_some]
    rw [List.getElem?_replicate]
    by_cases hx : x < n
    · rw [if_pos hx]; rfl
    · rw [if_neg hx]; rfl
  · rw [if_neg hy]; rfl

theorem getCell_false_of_ge_row {n : Nat} {g : List (List Bool)} (h : WFGrid n g)
    {y : Nat} (x : Nat) (hy : n ≤ y) : getCell g y x = false := by
  unfold getCell
  have h0 : g[y]? = none := List.getElem?_eq_none_iff.2 (by rw [h.1]; omega)
  rw [h0]
  rfl

theorem getCell_false_of_ge_col {n : Nat} {g : List (List Bool)} (h : WFGrid n g)
    {y x : Nat} (hx : n ≤ x) : getCell g y x = false := by
  unfold getCell
  by_cases hy : y < n
  · have hr := h.row_len hy
    have h0 : (g[y]?.getD [])[x]? = none := List.getElem?_eq_none_iff.2 (by omega)
    rw [h0]
    rfl
  · have h0 : g[y]? = none := List.getElem?_eq_none_iff.2 (by rw [h.1]; omega)
    rw [h0]
    rfl

theorem setCellTrue_wf {n : Nat} {g : List (List Bool)} (h : WFGrid n g) (y x : Nat) :
    WFGrid n (setCellTrue g y x) := by
  obtain ⟨hlen, hrows⟩ := h
  refine ⟨by simp [setCellTrue, hlen], ?_⟩
  intro row hrow
  rw [List.mem_iff_getElem?] at hrow
  obtain ⟨i, hi⟩ := hrow
  unfold setCellTrue at hi
  by_cases hiy : i = y
  · subst hiy
    by_cases hig : i < g.length
    · rw [List.getElem?_set_eq_of_lt _ hig] at hi
      have hrl : ((g[i]?).getD []).length = n := by
        rw [List.getElem?_eq_getElem hig]
        exact hrows _ (List.getElem_mem hig)
      injection hi with hi'
      rw [← hi']
      simpa using hrl
    · rw [List.getElem?_set_self'] at hi
      have h0 : g[i]? = none := List.getElem?_eq_none_iff.2 (by omega)
      rw [h0] at hi
      simp at hi
  · rw [List.getElem?_set_ne (fun hh => hiy hh.symm)] at hi
    exact hrows _ (List.getElem?_mem hi)

theorem getCell_setCellTrue {n : Nat} {g : List (List Bool)} (h : WFGrid n g)
    {y x : Nat} (hy : y < n) (hx : x < n) (y' x' : Nat) :
    getCell (setCellTrue g y x) y' x' =
      if y' = y ∧ x' = x then true else getCell g y' x' := by
  have hyg : y < g.length := by rw [h.1]; omega
  have hrl : ((g[y]?).getD []).length = n := h.row_len hy
  unfold getCell setCellTrue
  by_cases hyy : y' = y
  · subst hyy
    rw [List.getElem?_set_eq_of_lt _ hyg]
    simp only [Option.getD_some]
    by_cases hxx : x' = x
    · subst hxx
      rw [List.getElem?_set_eq_of_lt _ (by omega)]
      simp
    · rw [List.getElem?_set_ne (fun hh => hxx hh.symm)]
      rw [if_neg (by tauto)]
  · rw [List.getElem?_set_ne (fun hh => hyy hh.symm)]
    rw [if_neg (by tauto)]

theorem markRow_wf {n : Nat} {g : List (List Bool)} (h : WFGrid n g) (x0 y w : Nat) :
    WFGrid n (markRow g x0 y w) := by
  induction w generalizing g with
  | zero => simpa [markRow] using h
  | succ w ih =>
    have : markRow g x0 y (w + 1) =
        setCellTrue (markRow g x0 y w) y (x0 + w) := by
      unfold markRow
      rw [List.range_succ, List.foldl_append]
      rfl
    rw [this]
    exact setCellTrue_wf (ih h) _ _

theorem getCell_markRow {n : Nat} {g : List (List Bool)} (h : WFGrid n g)
    {x0 y w : Nat} (hy : y < n) (hw : x0 + w ≤ n) (y' x' : Nat) :
    getCell (markRow g x0 y w) y' x' =
      if y' = y ∧ x0 ≤ x' ∧ x' < x0 + w then true else getCell g y' x' := by
  induction w generalizing g with
  | zero =>
    simp only [markRow, List.range_zero, List.foldl_nil]
    have : ¬(y' = y ∧ x0 ≤ x' ∧ x' < x0 + 0) := by omega
    rw [if_neg this]
  | succ w ih =>
    have hstep : markRow g x0 y (w + 1) =
        setCellTrue (markRow g x0 y w) y (x0 + w) := by
      unfold markRow
      rw [List.range_succ, List.foldl_append]
      rfl
    rw [hstep,
      getCell_setCellTrue (markRow_wf h x0 y w) hy (by omega) y' x',
      ih h (by omega)]
    by_cases h1 : y' = y ∧ x' = x0 + w
    · rw [if_pos h1, if_pos (by omega)]
    · rw [if_neg h1]
      by_cases h2 : y' = y ∧ x0 ≤ x' ∧ x' < x0 + w
      · rw [if_pos h2, if_pos (by omega)]
      · rw [if_neg h2, if_neg (by omega)]

theorem markRect_wf {n : Nat} {g : List (List Bool)} (h : WFGrid n g) (x0 y0 w hh : Nat) :
    WFGrid n (markRect g x0 y0 w hh) := by
  induction hh generalizing g with
  | zero => simpa [markRect] using h
  | succ k ih =>
    have : markRect g x0 y0 w (k + 1) =
        markRow (markRect g x0 y0 w k) x0 (y0 + k) w := by
      unfold markRect
      rw [List.range_succ, List.foldl_append]
      rfl
    rw [this]
    exact markRow_wf (ih h) _ _ _

theorem getCell_markRect {n : Nat} {g : List (List Bool)} (h : WFGrid n g)
    {x0 y0 w hh : Nat} (hwb : x0 + w ≤ n) (hhb : y0 + hh ≤ n) (y' x' : Nat) :
    getCell (markRect g x0 y0 w hh) y' x' =
      if x0 ≤ x' ∧ x' < x0 + w ∧ y0 ≤ y' ∧ y' < y0 + hh then true
      else getCell g y' x' := by
  induction hh generalizing g with
  | zero =>
    simp only [markRect, List.range_zero, List.foldl_nil]
    rw [if_neg (by omega)]
  | succ k ih =>
    have hstep : markRect g x0 y0 w (k + 1) =
        markRow (markRect g x0 y0 w k) x0 (y0 + k) w := by
      unfold markRect
      rw [List.range_succ, List.foldl_append]
      rfl
    rw [hstep,
      getCell_markRow (markRect_wf h x0 y0 w k) (by omega) (by omega) y' x',
      ih h (by omega)]
    by_cases h1 : y' = y0 + k ∧ x0 ≤ x' ∧ x' < x0 + w
    · rw [if_pos h1, if_pos (by omega)]
    · rw [if_neg h1]
      by_cases h2 : x0 ≤ x' ∧ x' < x0 + w ∧ y0 ≤ y' ∧ y' < y0 + k
      · rw [if_pos h2, if_pos (by omega)]
      · rw [if_neg h2, if_neg (by omega)]

/-- Cells already true stay true under `markRect` (monotonicity). -/
theorem getCell_markRect_mono {n : Nat} {g : List (List Bool)} (h : WFGrid n g)
    {x0 y0 w hh : Nat} (hwb : x0 + w ≤ n) (hhb : y0 + hh ≤ n) {y' x' : Nat}
    (hc : getCell g y' x' = true) : getCell (markRect g x0 y0 w hh) y' x' = true := by
  rw [getCell_markRect h hwb hhb]
  split
  · rfl
  · exact hc

/-- Pointwise equal well-formed grids are equal as lists of lists. -/
theorem grid_ext {n : Nat} {g1 g2 : List (List Bool)} (h1 : WFGrid n g1) (h2 : WFGrid n g2)
    (heq : ∀ y x, y < n → x < n → getCell g1 y x = getCell g2 y x) : g1 = g2 := by
  apply List.ext_getElem (by rw [h1.1, h2.1])
  intro y hy1 hy2
  have hyn : y < n := by rw [← h1.1]; exact hy1
  apply List.ext_getElem
  · rw [h1.2 _ (List.getElem_mem hy1), h2.2 _ (List.getElem_mem hy2)]
  · intro x hx1 hx2
    have hxn : x < n := by
      rw [h1.2 _ (List.getElem_mem hy1)] at hx1; exact hx1
    have e1 : getCell g1 y x = g1[y][x] := by
      unfold getCell
      rw [List.getElem?_eq_getElem hy1]
      simp only [Option.getD_some]
      rw [List.getElem?_eq_getElem hx1]
      rfl
    have e2 : getCell g2 y x = g2[y][x] := by
      unfold getCell
      rw [List.getElem?_eq_getElem hy2]
      simp only [Option.getD_some]
      rw [List.getElem?_eq_getElem hx2]
      rfl
    rw [← e1, ← e2]
    exact heq y x hyn hxn

/-! ## Rect lemmas -/

theorem mem_intRange {a b c : Int} : c ∈ intRange a b ↔ a ≤ c ∧ c < b := by
  constructor
  · intro hc
    unfold intRange at hc
    obtain ⟨i, hi, hieq⟩ := List.mem_map.1 hc
    rw [List.mem_range] at hi
    have hieq' : a + (i : Int) = c := hieq
    omega
  · rintro ⟨h1, h2⟩
    unfold intRange
    refine List.mem_map.2 ⟨(c - a).toNat, ?_, ?_⟩
    · rw [List.mem_range]; omega
    · show a + ((c - a).toNat : Int) = c
      omega

theorem Rect.mem_cells {r : Rect} {x y : Int} :
    (x, y) ∈ r.cells ↔
      r.normalized.x0 ≤ x ∧ x ≤ r.normalized.x1 ∧
      r.normalized.y0 ≤ y ∧ y ≤ r.normalized.y1 := by
  unfold Rect.cells
  constructor
  · intro hc
    obtain ⟨b, hb, hx⟩ := List.mem_flatMap.1 hc
    obtain ⟨a, ha, heq⟩ := List.mem_map.1 hx
    obtain ⟨rfl, rfl⟩ : a = x ∧ b = y :=
      ⟨congrArg Prod.fst heq, congrArg Prod.snd heq⟩
    rw [mem_intRange] at hb ha
    omega
  · rintro ⟨h1, h2, h3, h4⟩
    refine List.mem_flatMap.2 ⟨y, by rw [mem_intRange]; omega, ?_⟩
    exact List.mem_map.2 ⟨x, by rw [mem_intRange]; omega, rfl⟩

theorem Rect.normalized_normalized (r : Rect) : r.normalized.normalized = r.normalized := by
  unfold Rect.normalized
  simp only [Rect.mk.injEq]
  omega

theorem Rect.cells_normalized (r : Rect) : (r.normalized).cells = r.cells := by
  unfold Rect.cells
  rw [Rect.normalized_normalized]

/-- Cell membership for the rectangles emitted by the compressor:
`Rect(x, y, x + w - 1, y + h - 1)` with `w, h ≥ 1` covers
`[x, x + w) × [y, y + h)`. -/
theorem mem_cells_natRect {x y w h : Nat} (hw : 1 ≤ w) (hh : 1 ≤ h) (a b : Int) :
    (a, b) ∈ (Rect.mk (x : Int) (y : Int) ((x : Int) + (w : Int) - 1)
        ((y : Int) + (h : Int) - 1)).cells ↔
      (x : Int) ≤ a ∧ a < (x : Int) + (w : Int) ∧
      (y : Int) ≤ b ∧ b < (y : Int) + (h : Int) := by
  rw [Rect.mem_cells]
  unfold Rect.normalized
  simp only
  omega

/-! ## Compressor invariant -/

theorem compressStep_inv {n : Nat} {bg : List (List Bool)} (hbg : WFGrid n bg)
    {st : List (List Bool) × List Rect} (pos : Nat × Nat)
    (h : CompressInv n bg st) : CompressInv n bg (compressStep n bg st pos) := by
  obtain ⟨hwf, hunion, hsub, hdisj⟩ := h
  obtain ⟨y, x⟩ := pos
  unfold compressStep
  by_cases hcond : (getCell bg y x && !getCell st.1 y x) = true
  case neg =>
    rw [if_neg hcond]
    exact ⟨hwf, hunion, hsub, hdisj⟩
  case pos =>
  rw [if_pos hcond]
  rw [Bool.and_eq_true, Bool.not_eq_true'] at hcond
  obtain ⟨hbgc, hnv⟩ := hcond
  -- the scanned cell is in bounds because out-of-bounds reads are false
  have hy : y < n := by
    by_contra hge
    rw [getCell_false_of_ge_row hbg x (by omega)] at hbgc
    exact Bool.false_ne_true hbgc
  have hx : x < n := by
    by_contra hge
    rw [getCell_false_of_ge_col hbg (x := x) (by omega)] at hbgc
    exact Bool.false_ne_true hbgc
  set W : Nat := compressW n bg st.1 y x with hW
  set H : Nat := compressH n bg st.1 y x with hH
  have hWrun : W = 1 + growRun (fun xx => getCell bg y xx && !getCell st.1 y xx) n (x + 1) := by
    rw [hW, compressW]
  have hHrun : H = 1 + growRun
      (fun yy => (List.range W).all
        (fun dx => getCell bg yy (x + dx) && !getCell st.1 yy (x + dx)))
      n (y + 1) := by
    rw [hH, compressH, ← hW]
  have hW1 : 1 ≤ W := by omega
  have hH1 : 1 ≤ H := by omega
  have hxW : x + W ≤ n := by
    have := @growRun_le (fun xx => getCell bg y xx && !getCell st.1 y xx)
      n (x + 1) (by omega)
    omega
  have hyH : y + H ≤ n := by
    have := @growRun_le
      (fun yy => (List.range W).all
        (fun dx => getCell bg yy (x + dx) && !getCell st.1 yy (x + dx)))
      n (y + 1) (by omega)
    omega
  -- every cell of the grown block is a set, unvisited background cell
  have hrow0 : ∀ dx, dx < W → getCell bg y (x + dx) = true ∧ getCell st.1 y (x + dx) = false := by
    intro dx hdx
    match dx with
    | 0 => exact ⟨hbgc, hnv⟩
    | i + 1 =>
      have hi : i < growRun (fun xx => getCell bg y xx && !getCell st.1 y xx) n (x + 1) := by
        omega
      obtain ⟨hok, _⟩ := growRun_ok hi
      simp only [Bool.and_eq_true, Bool.not_eq_true'] at hok
      have : x + 1 + i = x + (i + 1) := by omega
      rw [this] at hok
      exact hok
  have hcells : ∀ dy dx, dy < H → dx < W →
      getCell bg (y + dy) (x + dx) = true ∧ getCell st.1 (y + dy) (x + dx) = false := by
    intro dy dx hdy hdx
    match dy with
    | 0 => exact hrow0 dx hdx
    | j + 1 =>
      have hj : j < growRun
          (fun yy => (List.range W).all
            (fun dx => getCell bg yy (x + dx) && !getCell st.1 yy (x + dx)))
          n (y + 1) := by omega
      obtain ⟨hok, _⟩ := growRun_ok hj
      rw [List.all_eq_true] at hok
      have hmem : dx ∈ List.range W := List.mem_range.2 hdx
      have := hok dx hmem
      simp only [Bool.and_eq_true, Bool.not_eq_true'] at this
      have heq : y + 1 + j = y + (j + 1) := by omega
      rw [heq] at this
      exact this
  set R : Rect := ⟨(x : Int), (y : Int), (x : Int) + (W : Int) - 1, (y : Int) + (H : Int) - 1⟩
    with hR
  have hRmem : ∀ a b : Int, (a, b) ∈ R.cells ↔
      (x : Int) ≤ a ∧ a < (x : Int) + (W : Int) ∧
      (y : Int) ≤ b ∧ b < (y : Int) + (H : Int) := by
    intro a b
    rw [hR]
    exact mem_cells_natRect hW1 hH1 a b
  refine ⟨markRect_wf hwf x y W H, ?_, ?_, ?_⟩
  · -- visited = union of emitted rects
    intro y' x'
    rw [getCell_markRect hwf hxW hyH y' x']
    by_cases hin : x ≤ x' ∧ x' < x + W ∧ y ≤ y' ∧ y' < y + H
    · rw [if_pos hin]
      constructor
      · intro _
        refine ⟨R, List.mem_append_right _ (List.mem_singleton.2 rfl), ?_⟩
        rw [hRmem]
        omega
      · intro _
        rfl
    · rw [if_neg hin]
      rw [hunion y' x']
      constructor
      · rintro ⟨r, hr, hcell⟩
        exact ⟨r, List.mem_append_left _ hr, hcell⟩
      · rintro ⟨r, hr, hcell⟩
        rcases List.mem_append.1 hr with hold | hnew
        · exact ⟨r, hold, hcell⟩
        · rw [List.mem_singleton.1 hnew] at hcell
          rw [hRmem] at hcell
          exfalso
          apply hin
          constructor
          · omega
          constructor
          · omega
          constructor
          · omega
          · omega
  · -- every emitted rect covers only in-bounds set cells of bg
    intro r hr a b hcell
    rcases List.mem_append.1 hr with hold | hnew
    · exact hsub r hold a b hcell
    · rw [List.mem_singleton.1 hnew] at hcell
      rw [hRmem] at hcell
      have h0a : 0 ≤ a := by omega
      have h0b : 0 ≤ b := by omega
      refine ⟨h0a, by omega, h0b, by omega, ?_⟩
      have hidx : y + (b.toNat - y) = b.toNat ∧ x + (a.toNat - x) = a.toNat := by omega
      have := (hcells (b.toNat - y) (a.toNat - x) (by omega) (by omega)).1
      rw [hidx.1, hidx.2] at this
      exact this
  · -- pairwise disjointness
    rw [List.pairwise_append]
    refine ⟨hdisj, List.pairwise_singleton _ _, ?_⟩
    intro r hrold r' hrnew
    rw [List.mem_singleton.1 hrnew]
    intro a b hab
    obtain ⟨hcr, hcR⟩ := hab
    rw [hRmem] at hcR
    obtain ⟨_, _, _, _, _⟩ := hsub r hrold a b hcr
    -- the cell lies in an old rect, hence visited; but it lies in the new
    -- block, whose cells were unvisited
    have hvis : getCell st.1 b.toNat a.toNat = true := by
      rw [hunion b.toNat a.toNat]
      refine ⟨r, hrold, ?_⟩
      have hcast : ((a.toNat : Int), (b.toNat : Int)) = (a, b) := by
        simp only [Prod.mk.injEq]
        omega
      rw [hcast]
      exact hcr
    have hidx : y + (b.toNat - y) = b.toNat ∧ x + (a.toNat - x) = a.toNat := by omega
    have hnvis := (hcells (b.toNat - y) (a.toNat - x) (by omega) (by omega)).2
    rw [hidx.1, hidx.2] at hnvis
    rw [hvis] at hnvis
    exact absurd hnvis (by simp)

/-! ## Monotonicity of the visited grid (no well-formedness needed) -/

theorem getCell_setCellTrue_mono (g : List (List Bool)) (y x : Nat) {y' x' : Nat}
    (h : getCell g y' x' = true) : getCell (setCellTrue g y x) y' x' = true := by
  unfold getCell at h ⊢
  unfold setCellTrue
  by_cases hyy : y' = y
  · subst hyy
    by_cases hyg : y' < g.length
    · rw [List.getElem?_set_eq_of_lt _ hyg]
      simp only [Option.getD_some]
      by_cases hxx : x' = x
      · subst hxx
        by_cases hxr : x' < ((g[y']?).getD []).length
        · rw [List.getElem?_set_eq_of_lt _ hxr]
          rfl
        · have h0 : ((g[y']?).getD [])[x']? = none :=
            List.getElem?_eq_none_iff.2 (by omega)
          rw [h0] at h
          simp at h
      · rw [List.getElem?_set_ne (fun hh => hxx hh.symm)]
        exact h
    · have h0 : g[y']? = none := List.getElem?_eq_none_iff.2 (by omega)
      rw [h0] at h
      simp at h
  · rw [List.getElem?_set_ne (fun hh => hyy hh.symm)]
    exact h

theorem getCell_markRow_mono (g : List (List Bool)) (x0 yy w : Nat) {y' x' : Nat}
    (h : getCell g y' x' = true) : getCell (markRow g x0 yy w) y' x' = true := by
  induction w generalizing g with
  | zero => simpa [markRow] using h
  | succ w ih =>
    have hstep : markRow g x0 yy (w + 1) =
        setCellTrue (markRow g x0 yy w) yy (x0 + w) := by
      unfold markRow
      rw [List.range_succ, List.foldl_append]
      rfl
    rw [hstep]
    exact getCell_setCellTrue_mono _ _ _ (ih _ h)

theorem getCell_markRect_mono_free (g : List (List Bool)) (x0 y0 w hh : Nat) {y' x' : Nat}
    (h : getCell g y' x' = true) : getCell (markRect g x0 y0 w hh) y' x' = true := by
  induction hh generalizing g with
  | zero => simpa [markRect] using h
  | succ k ih =>
    have hstep : markRect g x0 y0 w (k + 1) =
        markRow (markRect g x0 y0 w k) x0 (y0 + k) w := by
      unfold markRect
      rw [List.range_succ, List.foldl_append]
      rfl
    rw [hstep]
    exact getCell_markRow_mono _ _ _ _ (ih _ h)

theorem compressStep_visited_mono (n : Nat) (bg : List (List Bool))
    (st : List (List Bool) × List Rect) (pos : Nat × Nat) {y x : Nat}
    (hv : getCell st.1 y x = true) :
    getCell (compressStep n bg st pos).1 y x = true := by
  unfold compressStep
  by_cases hcond : (getCell bg pos.1 pos.2 && !getCell st.1 pos.1 pos.2) = true
  · rw [if_pos hcond]
    exact getCell_markRect_mono_free _ _ _ _ _ hv
  · rw [if_neg hcond]
    exact hv

/-! ## Growth bounds and step coverage -/

theorem compressW_pos (n : Nat) (bg v : List (List Bool)) (y x : Nat) :
    1 ≤ compressW n bg v y x := by
  unfold compressW
  omega

theorem compressH_pos (n : Nat) (bg v : List (List Bool)) (y x : Nat) :
    1 ≤ compressH n bg v y x := by
  unfold compressH
  omega

theorem compressW_le {n : Nat} (bg v : List (List Bool)) {y x : Nat} (hx : x < n) :
    x + compressW n bg v y x ≤ n := by
  unfold compressW
  have := @growRun_le (fun xx => getCell bg y xx && !getCell v y xx)
    n (x + 1) (by omega)
  omega

theorem compressH_le {n : Nat} (bg v : List (List Bool)) {y x : Nat} (hy : y < n) :
    y + compressH n bg v y x ≤ n := by
  unfold compressH
  have := @growRun_le
    (fun yy => (List.range (compressW n bg v y x)).all
      (fun dx => getCell bg yy (x + dx) && !getCell v yy (x + dx)))
    n (y + 1) (by omega)
  omega

/-- After processing scan position `(y, x)`, a set background cell at that
position is visited. -/
theorem compressStep_covers {n : Nat} {bg : List (List Bool)} (hbg : WFGrid n bg)
    {st : List (List Bool) × List Rect} (h : CompressInv n bg st)
    (y x : Nat) (hcell : getCell bg y x = true) :
    getCell (compressStep n bg st (y, x)).1 y x = true := by
  obtain ⟨hwf, _, _, _⟩ := h
  have hy : y < n := by
    by_contra hge
    rw [getCell_false_of_ge_row hbg x (by omega)] at hcell
    exact absurd hcell (by simp)
  have hx : x < n := by
    by_contra hge
    rw [getCell_false_of_ge_col hbg (x := x) (by omega)] at hcell
    exact absurd hcell (by simp)
  unfold compressStep
  by_cases hcond : (getCell bg (y, x).1 (y, x).2 && !getCell st.1 (y, x).1 (y, x).2) = true
  · rw [if_pos hcond]
    show getCell (markRect st.1 x y (compressW n bg st.1 y x) (compressH n bg st.1 y x)) y x
      = true
    rw [getCell_markRect hwf (compressW_le bg st.1 hx) (compressH_le bg st.1 hy) y x]
    rw [if_pos ⟨by omega, by have := compressW_pos n bg st.1 y x; omega,
                by omega, by have := compressH_pos n bg st.1 y x; omega⟩]
  · rw [if_neg hcond]
    show getCell st.1 y x = true
    simp only [Bool.and_eq_true, Bool.not_eq_true', not_and] at hcond
    have := hcond hcell
    simpa using this

/-! ## The scan fold -/

theorem compress_fold_mono {n : Nat} {bg : List (List Bool)} :
    ∀ (L : List (Nat × Nat)) (st : List (List Bool) × List Rect) {y x : Nat},
      getCell st.1 y x = true →
      getCell (L.foldl (compressStep n bg) st).1 y x = true := by
  intro L
  induction L with
  | nil => intro st y x h; simpa using h
  | cons p L ih =>
    intro st y x h
    rw [List.foldl_cons]
    exact ih _ (compressStep_visited_mono n bg st p h)

theorem compress_fold {n : Nat} {bg : List (List Bool)} (hbg : WFGrid n bg) :
    ∀ (L : List (Nat × Nat)) (st : List (List Bool) × List Rect),
      CompressInv n bg st →
      CompressInv n bg (L.foldl (compressStep n bg) st) ∧
      ∀ p ∈ L, getCell bg p.1 p.2 = true →
        getCell (L.foldl (compressStep n bg) st).1 p.1 p.2 = true := by
  intro L
  induction L with
  | nil =>
    intro st h
    exact ⟨h, by simp⟩
  | cons p L ih =>
    intro st h
    rw [List.foldl_cons]
    obtain ⟨hinv', hcov⟩ := ih (compressStep n bg st p) (compressStep_inv hbg p h)
    refine ⟨hinv', ?_⟩
    intro q hq hcell
    rcases List.mem_cons.1 hq with rfl | hmem
    · obtain ⟨qy, qx⟩ := q
      exact compress_fold_mono L _ (compressStep_covers hbg h qy qx hcell)
    · exact hcov q hmem hcell

theorem mem_scanPositions {n : Nat} {p : Nat × Nat} :
    p ∈ scanPositions n ↔ p.1 < n ∧ p.2 < n := by
  obtain ⟨y, x⟩ := p
  unfold scanPositions
  constructor
  · intro hp
    obtain ⟨b, hb, hx⟩ := List.mem_flatMap.1 hp
    obtain ⟨a, ha, heq⟩ := List.mem_map.1 hx
    obtain ⟨rfl, rfl⟩ : b = y ∧ a = x :=
      ⟨congrArg Prod.fst heq, congrArg Prod.snd heq⟩
    exact ⟨List.mem_range.1 hb, List.mem_range.1 ha⟩
  · rintro ⟨h1, h2⟩
    refine List.mem_flatMap.2 ⟨y, List.mem_range.2 h1, ?_⟩
    exact List.mem_map.2 ⟨x, List.mem_range.2 h2, rfl⟩

/-- The full correctness of `_background_to_rects` on a well-formed grid:
the emitted rectangles are pairwise disjoint and their cells are exactly the
in-bounds set cells of the grid. -/
theorem background_to_rects_props {n : Nat} {bg : List (List Bool)} (hbg : WFGrid n bg) :
    List.Pairwise RectDisjoint (background_to_rects n bg) ∧
    (∀ x y : Int, (∃ r ∈ background_to_rects n bg, (x, y) ∈ r.cells) ↔
      (0 ≤ x ∧ x < (n : Int) ∧ 0 ≤ y ∧ y < (n : Int) ∧
       getCell bg y.toNat x.toNat = true)) := by
  have hinit : CompressInv n bg (emptyGrid n, ([] : List Rect)) := by
    refine ⟨emptyGrid_wf n, ?_, ?_, List.Pairwise.nil⟩
    · intro y x
      rw [getCell_emptyGrid]
      simp
    · intro r hr
      simp at hr
  obtain ⟨⟨hwf, hunion, hsub, hdisj⟩, hcov⟩ :=
    compress_fold hbg (scanPositions n) (emptyGrid n, []) hinit
  constructor
  · exact hdisj
  · intro x y
    constructor
    · rintro ⟨r, hr, hcell⟩
      exact hsub r hr x y hcell
    · rintro ⟨h1, h2, h3, h4, h5⟩
      have hpos : ((y.toNat, x.toNat) : Nat × Nat) ∈ scanPositions n := by
        rw [mem_scanPositions]
        constructor
        · omega
        · omega
      have hvis := hcov (y.toNat, x.toNat) hpos h5
      have := (hunion y.toNat x.toNat).1 hvis
      obtain ⟨r, hr, hcell⟩ := this
      refine ⟨r, hr, ?_⟩
      have hcast : ((x.toNat : Int), (y.toNat : Int)) = (x, y) := by
        simp only [Prod.mk.injEq]
        omega
      rwa [hcast] at hcell

/-! ## Decompression (`_background_from_rects`) -/

theorem paint_cells_props {n : Nat} :
    ∀ (cs : List (Int × Int)) (b : List (List Bool)), WFGrid n b →
      WFGrid n (cs.foldl (fun b c =>
          if 0 ≤ c.1 ∧ c.1 < (n : Int) ∧ 0 ≤ c.2 ∧ c.2 < (n : Int) then
            setCellTrue b c.2.toNat c.1.toNat else b) b) ∧
      ∀ y x : Nat, getCell (cs.foldl (fun b c =>
          if 0 ≤ c.1 ∧ c.1 < (n : Int) ∧ 0 ≤ c.2 ∧ c.2 < (n : Int) then
            setCellTrue b c.2.toNat c.1.toNat else b) b) y x = true ↔
        (getCell b y x = true ∨ (((x : Int), (y : Int)) ∈ cs ∧ x < n ∧ y < n)) := by
  intro cs
  induction cs with
  | nil =>
    intro b hb
    refine ⟨hb, ?_⟩
    intro y x
    simp
  | cons c cs ih =>
    intro b hb
    rw [List.foldl_cons]
    by_cases hc : 0 ≤ c.1 ∧ c.1 < (n : Int) ∧ 0 ≤ c.2 ∧ c.2 < (n : Int)
    · rw [if_pos hc]
      obtain ⟨hwf', hiff'⟩ := ih (setCellTrue b c.2.toNat c.1.toNat) (setCellTrue_wf hb _ _)
      refine ⟨hwf', ?_⟩
      intro y x
      rw [hiff' y x,
        getCell_setCellTrue hb (by omega) (by omega) y x]
      constructor
      · rintro (hset | ⟨hmem, hxn, hyn⟩)
        · by_cases hyx : y = c.2.toNat ∧ x = c.1.toNat
          · right
            have he1 : (x : Int) = c.1 := by omega
            have he2 : (y : Int) = c.2 := by omega
            have hes : ((x : Int), (y : Int)) = c := by
              rw [Prod.ext_iff]
              exact ⟨he1, he2⟩
            refine ⟨by rw [hes]; exact List.mem_cons_self _ _, by omega, by omega⟩
          · rw [if_neg hyx] at hset
            exact Or.inl hset
        · exact Or.inr ⟨List.mem_cons_of_mem _ hmem, hxn, hyn⟩
      · rintro (hold | ⟨hmem, hxn, hyn⟩)
        · left
          split
          · rfl
          · exact hold
        · rcases List.mem_cons.1 hmem with heq | htail
          · left
            rw [if_pos (by
              obtain ⟨e1, e2⟩ : (x : Int) = c.1 ∧ (y : Int) = c.2 :=
                ⟨congrArg Prod.fst heq, congrArg Prod.snd heq⟩
              omega)]
          · exact Or.inr ⟨htail, hxn, hyn⟩
    · rw [if_neg hc]
      obtain ⟨hwf', hiff'⟩ := ih b hb
      refine ⟨hwf', ?_⟩
      intro y x
      rw [hiff' y x]
      constructor
      · rintro (hold | ⟨hmem, hxn, hyn⟩)
        · exact Or.inl hold
        · exact Or.inr ⟨List.mem_cons_of_mem _ hmem, hxn, hyn⟩
      · rintro (hold | ⟨hmem, hxn, hyn⟩)
        · exact Or.inl hold
        · rcases List.mem_cons.1 hmem with heq | htail
          · exfalso
            apply hc
            obtain ⟨e1, e2⟩ : (x : Int) = c.1 ∧ (y : Int) = c.2 :=
              ⟨congrArg Prod.fst heq, congrArg Prod.snd heq⟩
            omega
          · exact Or.inr ⟨htail, hxn, hyn⟩

theorem background_from_rects_props (n : Nat) (rects : List Rect) :
    WFGrid n (background_from_rects n rects) ∧
    ∀ y x : Nat, getCell (background_from_rects n rects) y x = true ↔
      (x < n ∧ y < n ∧ ∃ r ∈ rects, ((x : Int), (y : Int)) ∈ r.cells) := by
  have main : ∀ (rs : List Rect) (b : List (List Bool)), WFGrid n b →
      WFGrid n (rs.foldl (fun bg r =>
        (r.normalized).cells.foldl (fun b c =>
          if 0 ≤ c.1 ∧ c.1 < (n : Int) ∧ 0 ≤ c.2 ∧ c.2 < (n : Int) then
            setCellTrue b c.2.toNat c.1.toNat else b) bg) b) ∧
      ∀ y x : Nat, getCell (rs.foldl (fun bg r =>
        (r.normalized).cells.foldl (fun b c =>
          if 0 ≤ c.1 ∧ c.1 < (n : Int) ∧ 0 ≤ c.2 ∧ c.2 < (n : Int) then
            setCellTrue b c.2.toNat c.1.toNat else b) bg) b) y x = true ↔
        (getCell b y x = true ∨
          (x < n ∧ y < n ∧ ∃ r ∈ rs, ((x : Int), (y : Int)) ∈ r.cells)) := by
    intro rs
    induction rs with
    | nil =>
      intro b hb
      refine ⟨hb, ?_⟩
      intro y x
      simp
    | cons r rs ih =>
      intro b hb
      rw [List.foldl_cons]
      obtain ⟨hwf1, hiff1⟩ := paint_cells_props ((r.normalized).cells) b hb
      obtain ⟨hwf2, hiff2⟩ := ih _ hwf1
      refine ⟨hwf2, ?_⟩
      intro y x
      rw [hiff2 y x, hiff1 y x]
      rw [Rect.cells_normalized]
      constructor
      · rintro ((hold | ⟨hmem, hxn, hyn⟩) | ⟨hxn, hyn, rr, hrr, hcell⟩)
        · exact Or.inl hold
        · exact Or.inr ⟨hxn, hyn, r, List.mem_cons_self _ _, hmem⟩
        · exact Or.inr ⟨hxn, hyn, rr, List.mem_cons_of_mem _ hrr, hcell⟩
      · rintro (hold | ⟨hxn, hyn, rr, hrr, hcell⟩)
        · exact Or.inl (Or.inl hold)
        · rcases List.mem_cons.1 hrr with rfl | htail
          · exact Or.inl (Or.inr ⟨hcell, hxn, hyn⟩)
          · exact Or.inr ⟨hxn, hyn, rr, htail, hcell⟩
  obtain ⟨hwf, hiff⟩ := main rects (emptyGrid n) (emptyGrid_wf n)
  refine ⟨hwf, ?_⟩
  intro y x
  rw [show background_from_rects n rects = rects.foldl (fun bg r =>
    (r.normalized).cells.foldl (fun b c =>
      if 0 ≤ c.1 ∧ c.1 < (n : Int) ∧ 0 ≤ c.2 ∧ c.2 < (n : Int) then
        setCellTrue b c.2.toNat c.1.toNat else b) bg) (emptyGrid n) from rfl]
  rw [hiff y x, getCell_emptyGrid]
  simp

/-! ## Claim C1 and C2 theorems -/

/-- Round-trip of the background codec on any well-formed grid (shared
helper). -/
theorem background_roundtrip_aux (n : Nat)
    (g : List (List Bool)) (hg : WFGrid n g) :
    background_from_rects n (background_to_rects n g) = g := by
  obtain ⟨hdisj, hunion⟩ := background_to_rects_props hg
  obtain ⟨hwf, hiff⟩ := background_from_rects_props n (background_to_rects n g)
  apply grid_ext hwf hg
  intro y x hy hx
  have hx' : ((x : Int)).toNat = x := Int.toNat_natCast x
  have hy' : ((y : Int)).toNat = y := Int.toNat_natCast y
  have hiffb : getCell (background_from_rects n (background_to_rects n g)) y x = true ↔
      getCell g y x = true := by
    rw [hiff y x]
    constructor
    · rintro ⟨_, _, hex⟩
      have hmain := (hunion (x : Int) (y : Int)).1 hex
      rw [hx', hy'] at hmain
      exact hmain.2.2.2.2
    · intro hc
      refine ⟨hx, hy, ?_⟩
      apply (hunion (x : Int) (y : Int)).2
      rw [hx', hy']
      exact ⟨by omega, by omega, by omega, by omega, hc⟩
  cases hval : getCell g y x <;>
    cases hval2 : getCell (background_from_rects n (background_to_rects n g)) y x <;>
    simp_all

/-- C1: Background codec round-trip.  For every N×N boolean grid `g` (N the
configured grid size, N ∈ {16, 32}), decompressing the compression of `g`
yields `g` exactly: `_background_from_rects(_background_to_rects(g)) == g`. -/
theorem background_roundtrip (n : Nat) (hn : n = 16 ∨ n = 32)
    (g : List (List Bool)) (hg : WFGrid n g) :
    background_from_rects n (background_to_rects n g) = g :=
  background_roundtrip_aux n g hg

/-- Witness for C1 at a concrete input: the 16 × 16 example grid. -/
theorem background_roundtrip_witness :
    ((16 = 16 ∨ 16 = 32) ∧ WFGrid 16 exampleGrid16) ∧
    background_from_rects 16 (background_to_rects 16 exampleGrid16) = exampleGrid16 :=
  ⟨⟨Or.inl rfl, by decide⟩,
   background_roundtrip 16 (Or.inl rfl) exampleGrid16 (by decide)⟩

/-- C2: Compression exactness and disjointness.  For every N×N boolean grid
`g` (N ∈ {16, 32}), the rectangles returned by `_background_to_rects(g)` are
pairwise disjoint (no grid cell is covered by two returned rectangles) and
the union of their covered cells equals exactly the set of true cells of
`g`. -/
theorem background_to_rects_exact_and_disjoint (n : Nat) (hn : n = 16 ∨ n = 32)
    (g : List (List Bool)) (hg : WFGrid n g) :
    List.Pairwise RectDisjoint (background_to_rects n g) ∧
    (∀ x y : Int, (∃ r ∈ background_to_rects n g, (x, y) ∈ r.cells) ↔
      (0 ≤ x ∧ x < (n : Int) ∧ 0 ≤ y ∧ y < (n : Int) ∧
       getCell g y.toNat x.toNat = true)) :=
  background_to_rects_props hg

/-- Witness for C2 at a concrete input: the 16 × 16 example grid. -/
theorem background_to_rects_exact_and_disjoint_witness :
    ((16 = 16 ∨ 16 = 32) ∧ WFGrid 16 exampleGrid16) ∧
    (List.Pairwise RectDisjoint (background_to_rects 16 exampleGrid16) ∧
    (∀ x y : Int, (∃ r ∈ background_to_rects 16 exampleGrid16, (x, y) ∈ r.cells) ↔
      (0 ≤ x ∧ x < (16 : Int) ∧ 0 ≤ y ∧ y < (16 : Int) ∧
       getCell exampleGrid16 y.toNat x.toNat = true))) :=
  ⟨⟨Or.inl rfl, by decide⟩,
   background_to_rects_exact_and_disjoint 16 (Or.inl rfl) exampleGrid16 (by decide)⟩

/-! ## Sheet packer lemmas -/

theorem SheetInv_none {specs : List BlockSpec} {sh : Sheet} (h : sh.occ = none) :
    SheetInv specs sh ↔ ∃ it ∈ specs, (it.w > maxPx ∨ it.h > maxPx) ∧
      sh.placements = [⟨0, 0, it.block_key⟩] := by
  unfold SheetInv
  rw [h]

theorem SheetInv_some {specs : List BlockSpec} {sh : Sheet} (occ : List (List Bool))
    (h : sh.occ = some occ) :
    SheetInv specs sh ↔
      (WFGrid sheetTiles occ ∧
      (∀ pl ∈ sh.placements, ∃ tr : TileRect,
        placement_tile_rect specs pl = some tr ∧
        pl.x = tr.x0 * TILE_PX ∧ pl.y = tr.y0 * TILE_PX ∧
        tr.x0 + tr.w ≤ sheetTiles ∧ tr.y0 + tr.h ≤ sheetTiles ∧
        ∀ dy dx : Nat, dy < tr.h → dx < tr.w →
          getCell occ (tr.y0 + dy) (tr.x0 + dx) = true) ∧
      sh.placements.Pairwise (PlacementsDisjoint specs)) := by
  unfold SheetInv
  rw [h]

theorem can_place_spec {occ : List (List Bool)} {x0 y0 w_t h_t : Nat}
    (h : can_place occ x0 y0 w_t h_t = true) :
    x0 + w_t ≤ sheetTiles ∧ y0 + h_t ≤ sheetTiles ∧
    ∀ dy dx : Nat, dy < h_t → dx < w_t → getCell occ (y0 + dy) (x0 + dx) = false := by
  unfold can_place at h
  rw [Bool.and_eq_true, Bool.and_eq_true] at h
  obtain ⟨⟨h1, h2⟩, h3⟩ := h
  refine ⟨of_decide_eq_true h1, of_decide_eq_true h2, ?_⟩
  intro dy dx hdy hdx
  rw [List.all_eq_true] at h3
  have h4 := h3 dy (List.mem_range.2 hdy)
  rw [List.all_eq_true] at h4
  have h5 := h4 dx (List.mem_range.2 hdx)
  simpa using h5

theorem find_spot_spec {occ : List (List Bool)} {w_t h_t x0 y0 : Nat}
    (h : find_spot occ w_t h_t = some (x0, y0)) :
    can_place occ x0 y0 w_t h_t = true := by
  unfold find_spot at h
  obtain ⟨y1, _, hy1⟩ := List.exists_of_findSome?_eq_some h
  match hf : (List.range (sheetTiles + 1 - w_t)).find? (fun x1 => can_place occ x1 y1 w_t h_t) with
  | none => rw [hf] at hy1; simp at hy1
  | some x1 =>
    rw [hf] at hy1
    simp only [Option.map_some', Option.some.injEq] at hy1
    obtain ⟨rfl, rfl⟩ : x1 = x0 ∧ y1 = y0 :=
      ⟨congrArg Prod.fst hy1, congrArg Prod.snd hy1⟩
    have hcp := List.find?_some hf
    simpa using hcp

theorem find?_key_nodup {specs : List BlockSpec}
    (hnd : (specs.map (fun s => s.block_key)).Nodup)
    {it : BlockSpec} (hit : it ∈ specs) :
    specs.find? (fun s => s.block_key == it.block_key) = some it := by
  induction specs with
  | nil => simp at hit
  | cons s rest ih =>
    rw [List.map_cons, List.nodup_cons] at hnd
    obtain ⟨hhead, htail⟩ := hnd
    by_cases hk : (s.block_key == it.block_key) = true
    · rw [List.find?_cons, hk]
      rcases List.mem_cons.1 hit with rfl | hmem
      · rfl
      · exfalso
        apply hhead
        rw [beq_iff_eq] at hk
        rw [hk]
        exact List.mem_map.2 ⟨it, hmem, rfl⟩
    · rw [List.find?_cons, Bool.eq_false_iff.2 hk]
      rcases List.mem_cons.1 hit with rfl | hmem
      · exfalso
        apply hk
        exact beq_self_eq_true _
      · exact ih htail hmem

theorem place_in_sheet_none {sh : Sheet} {it : BlockSpec} (h : sh.occ = none) :
    place_in_sheet sh it = (sh, false) := by
  unfold place_in_sheet
  rw [h]

theorem place_in_sheet_notfound {sh : Sheet} {it : BlockSpec} {occ : List (List Bool)}
    (h : sh.occ = some occ)
    (hf : find_spot occ (tiles_needed it.w) (tiles_needed it.h) = none) :
    place_in_sheet sh it = (sh, false) := by
  unfold place_in_sheet
  rw [h]
  simp only [hf]

theorem place_in_sheet_found {sh : Sheet} {it : BlockSpec} {occ : List (List Bool)}
    {x0 y0 : Nat} (h : sh.occ = some occ)
    (hf : find_spot occ (tiles_needed it.w) (tiles_needed it.h) = some (x0, y0)) :
    place_in_sheet sh it =
      ((⟨sh.w, sh.h,
         sh.placements ++ [⟨x0 * TILE_PX, y0 * TILE_PX, it.block_key⟩],
         some (markRect occ x0 y0 (tiles_needed it.w) (tiles_needed it.h))⟩ : Sheet),
       true) := by
  unfold place_in_sheet
  rw [h]
  simp only [hf]

theorem place_in_sheet_inv {specs : List BlockSpec}
    (hnd : (specs.map (fun s => s.block_key)).Nodup)
    {it : BlockSpec} (hit : it ∈ specs)
    {sh : Sheet} (hsh : SheetInv specs sh) :
    SheetInv specs (place_in_sheet sh it).1 := by
  rcases hocc : sh.occ with _ | occ
  · rw [place_in_sheet_none hocc]
    exact hsh
  · rcases hspot : find_spot occ (tiles_needed it.w) (tiles_needed it.h) with _ | ⟨x0, y0⟩
    · rw [place_in_sheet_notfound hocc hspot]
      exact hsh
    · rw [place_in_sheet_found hocc hspot]
      obtain ⟨hb1, hb2, hfree⟩ := can_place_spec (find_spot_spec hspot)
      rw [SheetInv_some _ hocc] at hsh
      obtain ⟨hwf, hpl, hpair⟩ := hsh
      have hrect : placement_tile_rect specs
          (⟨x0 * TILE_PX, y0 * TILE_PX, it.block_key⟩ : Placement) =
          some ⟨x0, y0, tiles_needed it.w, tiles_needed it.h⟩ := by
        unfold placement_tile_rect
        rw [find?_key_nodup hnd hit]
        simp only [Option.map_some', Option.some.injEq]
        have e1 : x0 * TILE_PX / TILE_PX = x0 := Nat.mul_div_cancel x0 (by norm_num [TILE_PX])
        have e2 : y0 * TILE_PX / TILE_PX = y0 := Nat.mul_div_cancel y0 (by norm_num [TILE_PX])
        rw [e1, e2]
      rw [SheetInv_some (markRect occ x0 y0 (tiles_needed it.w) (tiles_needed it.h)) rfl]
      refine ⟨markRect_wf hwf x0 y0 (tiles_needed it.w) (tiles_needed it.h), ?_, ?_⟩
      · intro pl hplm
        rcases List.mem_append.1 hplm with hold | hnew
        · obtain ⟨tr, htr, he1, he2, he3, he4, hcov⟩ := hpl pl hold
          refine ⟨tr, htr, he1, he2, he3, he4, ?_⟩
          intro dy dx hdy hdx
          exact getCell_markRect_mono_free _ _ _ _ _ (hcov dy dx hdy hdx)
        · rw [List.mem_singleton.1 hnew]
          refine ⟨⟨x0, y0, tiles_needed it.w, tiles_needed it.h⟩, hrect, rfl, rfl, hb1, hb2, ?_⟩
          intro dy dx hdy hdx
          dsimp only at hdy hdx ⊢
          rw [getCell_markRect hwf hb1 hb2]
          rw [if_pos (by omega)]
      · rw [List.pairwise_append]
        refine ⟨hpair, List.pairwise_singleton _ _, ?_⟩
        intro p hp q hq
        rw [List.mem_singleton.1 hq]
        intro trp trq htrp htrq tx ty hboth
        obtain ⟨hin1, hin2⟩ := hboth
        rw [hrect] at htrq
        injection htrq with htrq
        obtain ⟨tr, htr, _, _, _, _, hcov⟩ := hpl p hp
        rw [htr] at htrp
        injection htrp with htrp
        subst htrp
        subst htrq
        unfold InTileRect at hin1 hin2
        simp only at hin1 hin2
        have hocc1 : getCell occ ty tx = true := by
          have := hcov (ty - tr.y0) (tx - tr.x0) (by omega) (by omega)
          have heq : tr.y0 + (ty - tr.y0) = ty ∧ tr.x0 + (tx - tr.x0) = tx := by omega
          rwa [heq.1, heq.2] at this
        have hocc2 : getCell occ ty tx = false := by
          have := hfree (ty - y0) (tx - x0) (by omega) (by omega)
          have heq : y0 + (ty - y0) = ty ∧ x0 + (tx - x0) = tx := by omega
          rwa [heq.1, heq.2] at this
        rw [hocc1] at hocc2
        exact absurd hocc2 (by simp)

theorem place_first_inv {specs : List BlockSpec}
    (hnd : (specs.map (fun s => s.block_key)).Nodup)
    {it : BlockSpec} (hit : it ∈ specs) :
    ∀ {sheets sheets' : List Sheet}, place_first sheets it = some sheets' →
      (∀ sh ∈ sheets, SheetInv specs sh) → ∀ sh' ∈ sheets', SheetInv specs sh' := by
  intro sheets
  induction sheets with
  | nil =>
    intro sheets' h
    simp [place_first] at h
  | cons sh0 rest ih =>
    intro sheets' h hall
    unfold place_first at h
    by_cases hn : sh0.occ.isNone = true
    · rw [if_pos hn] at h
      match hrec : place_first rest it with
      | none =>
        rw [hrec] at h
        simp at h
      | some rest' =>
        rw [hrec] at h
        simp only [Option.map_some', Option.some.injEq] at h
        subst h
        intro sh' hsh'
        rcases List.mem_cons.1 hsh' with rfl | hmem
        · exact hall _ (List.mem_cons_self _ _)
        · exact ih hrec (fun s hs => hall s (List.mem_cons_of_mem _ hs)) sh' hmem
    · rw [if_neg hn] at h
      rcases hp : place_in_sheet sh0 it with ⟨sh2, b⟩
      rw [hp] at h
      cases b
      · dsimp only at h
        match hrec : place_first rest it with
        | none =>
          rw [hrec] at h
          simp at h
        | some rest' =>
          rw [hrec] at h
          simp only [Option.map_some', Option.some.injEq] at h
          subst h
          intro sh' hsh'
          rcases List.mem_cons.1 hsh' with rfl | hmem
          · exact hall _ (List.mem_cons_self _ _)
          · exact ih hrec (fun s hs => hall s (List.mem_cons_of_mem _ hs)) sh' hmem
      · dsimp only at h
        injection h with h
        subst h
        intro sh' hsh'
        rcases List.mem_cons.1 hsh' with rfl | hmem
        · have := place_in_sheet_inv hnd hit (hall sh0 (List.mem_cons_self _ _))
          rwa [hp] at this
        · exact hall _ (List.mem_cons_of_mem _ hmem)

theorem pack_step_inv {specs : List BlockSpec}
    (hnd : (specs.map (fun s => s.block_key)).Nodup)
    {it : BlockSpec} (hit : it ∈ specs) {sheets : List Sheet}
    (hall : ∀ sh ∈ sheets, SheetInv specs sh) :
    ∀ sh' ∈ pack_step sheets it, SheetInv specs sh' := by
  unfold pack_step
  by_cases hov : it.w > maxPx ∨ it.h > maxPx
  · rw [if_pos hov]
    intro sh' hsh'
    rcases List.mem_append.1 hsh' with hold | hnew
    · exact hall _ hold
    · rw [List.mem_singleton.1 hnew]
      rw [SheetInv_none rfl]
      exact ⟨it, hit, hov, rfl⟩
  · rw [if_neg hov]
    match hpf : place_first sheets it with
    | some sheets' =>
      exact place_first_inv hnd hit hpf hall
    | none =>
      intro sh' hsh'
      rcases List.mem_append.1 hsh' with hold | hnew
      · exact hall _ hold
      · rw [List.mem_singleton.1 hnew]
        apply place_in_sheet_inv hnd hit
        rw [SheetInv_some (emptyGrid sheetTiles) rfl]
        refine ⟨emptyGrid_wf _, ?_, List.Pairwise.nil⟩
        intro pl hpl
        simp [new_sheet] at hpl

theorem pack_fold_inv {specs : List BlockSpec}
    (hnd : (specs.map (fun s => s.block_key)).Nodup) :
    ∀ (items : List BlockSpec) (sheets : List Sheet),
      (∀ it ∈ items, it ∈ specs) → (∀ sh ∈ sheets, SheetInv specs sh) →
      ∀ sh' ∈ items.foldl pack_step sheets, SheetInv specs sh' := by
  intro items
  induction items with
  | nil =>
    intro sheets _ hall
    simpa using hall
  | cons it rest ih =>
    intro sheets hsub hall
    rw [List.foldl_cons]
    exact ih _ (fun j hj => hsub j (List.mem_cons_of_mem _ hj))
      (pack_step_inv hnd (hsub it (List.mem_cons_self _ _)) hall)

theorem collect_step_nodup {group : Bool} {acc : List BlockSpec} {e : EntrySnap}
    (hacc : (acc.map (fun s => s.block_key)).Nodup) :
    (((collect_step group acc e).map (fun s => s.block_key)).Nodup) := by
  unfold collect_step
  by_cases h1 : 0 < e.w_tiles * TILE_PX ∧ 0 < e.h_tiles * TILE_PX ∧ e.needs_texture = true
  · rw [if_pos h1]
    by_cases h2 : ((acc.find? (fun s =>
        s.block_key == block_key_for group e)).isSome : Bool) = true
    · rw [if_pos h2]
      exact hacc
    · rw [if_neg h2]
      rw [List.map_append, List.nodup_append]
      refine ⟨hacc, by simp, ?_⟩
      intro a ha hb
      simp only [List.map_cons, List.map_nil, List.mem_singleton] at hb
      subst hb
      apply h2
      rw [List.find?_isSome]
      rw [List.mem_map] at ha
      obtain ⟨spec, hspec, hkey⟩ := ha
      exact ⟨spec, hspec, by rw [hkey]; exact beq_self_eq_true _⟩
  · rw [if_neg h1]
    exact hacc

theorem collect_block_specs_nodup (group : Bool) (entries : List EntrySnap) :
    ((collect_block_specs group entries).map (fun s => s.block_key)).Nodup := by
  unfold collect_block_specs
  suffices h : ∀ (es : List EntrySnap) (acc : List BlockSpec),
      (acc.map (fun s => s.block_key)).Nodup →
      ((es.foldl (collect_step group) acc).map (fun s => s.block_key)).Nodup by
    exact h entries [] (by simp)
  intro es
  induction es with
  | nil =>
    intro acc hacc
    simpa using hacc
  | cons e rest ih =>
    intro acc hacc
    rw [List.foldl_cons]
    exact ih _ (collect_step_nodup hacc)

theorem insertStable_perm (x : BlockSpec) :
    ∀ (l : List BlockSpec), (insertStable x l).Perm (x :: l) := by
  intro l
  induction l with
  | nil => exact List.Perm.refl _
  | cons y ys ih =>
    unfold insertStable
    by_cases hc : (blockSortLe x y && !blockSortLe y x) = true
    · rw [if_pos hc]
    · rw [if_neg hc]
      exact (ih.cons y).trans (List.Perm.swap x y ys)

theorem sortBlocks_perm (items : List BlockSpec) : (sortBlocks items).Perm items := by
  suffices h : ∀ (its acc : List BlockSpec),
      (its.foldl (fun acc x => insertStable x acc) acc).Perm (acc ++ its) by
    simpa using h items []
  intro its
  induction its with
  | nil =>
    intro acc
    simp
  | cons x xs ih =>
    intro acc
    rw [List.foldl_cons]
    refine ((ih (insertStable x acc)).trans ?_)
    refine (((insertStable_perm x acc).append_right xs).trans ?_)
    exact List.perm_middle.symm

/-! ## Claim C3 -/

/-- C3: Packing non-overlap and containment.  For every input set of block
specs (any snapshot, any sizes) and either value of the
`group_buttons_by_size` policy, the placement loop of
`_plan_component_sheet_layout` places no two blocks on the same sheet with
intersecting tile rectangles, and every block placed on a shared
(non-oversized) sheet lies entirely within that sheet's
`sheet_tiles` × `sheet_tiles` occupancy grid; a dedicated (oversized) sheet
holds exactly one block. -/
theorem plan_packing_no_overlap (group_buttons_by_size : Bool) (entries : List EntrySnap) :
    ∀ sh ∈ pack_all (sortBlocks (collect_block_specs group_buttons_by_size entries)),
      (sh.occ.isSome = true →
        (∀ pl ∈ sh.placements, ∃ tr : TileRect,
          placement_tile_rect (collect_block_specs group_buttons_by_size entries) pl
            = some tr ∧
          tr.x0 + tr.w ≤ sheetTiles ∧ tr.y0 + tr.h ≤ sheetTiles) ∧
        sh.placements.Pairwise
          (PlacementsDisjoint (collect_block_specs group_buttons_by_size entries))) ∧
      (sh.occ = none → ∃ k : BlockKey, sh.placements = [⟨0, 0, k⟩]) := by
  intro sh hsh
  have hnd := collect_block_specs_nodup group_buttons_by_size entries
  have hperm := sortBlocks_perm (collect_block_specs group_buttons_by_size entries)
  have hinv := pack_fold_inv hnd _ []
    (fun it hit => (hperm.mem_iff).1 hit) (by simp) sh hsh
  constructor
  · intro hsome
    rcases hoccv : sh.occ with _ | occ
    · rw [hoccv] at hsome
      simp at hsome
    · rw [SheetInv_some _ hoccv] at hinv
      obtain ⟨_, hpl, hpair⟩ := hinv
      refine ⟨?_, hpair⟩
      intro pl hplm
      obtain ⟨tr, htr1, _, _, htr4, htr5, _⟩ := hpl pl hplm
      exact ⟨tr, htr1, htr4, htr5⟩
  · intro hoccn
    rw [SheetInv_none hoccn] at hinv
    obtain ⟨it, _, _, hpl⟩ := hinv
    exact ⟨it.block_key, hpl⟩

/-- Witness for C3: the example plan's first (shared) sheet. -/
theorem plan_packing_no_overlap_witness :
    (exampleSheet ∈ pack_all (sortBlocks (collect_block_specs true exampleEntries))) ∧
    ((exampleSheet.occ.isSome = true →
        (∀ pl ∈ exampleSheet.placements, ∃ tr : TileRect,
          placement_tile_rect (collect_block_specs true exampleEntries) pl = some tr ∧
          tr.x0 + tr.w ≤ sheetTiles ∧ tr.y0 + tr.h ≤ sheetTiles) ∧
        exampleSheet.placements.Pairwise
          (PlacementsDisjoint (collect_block_specs true exampleEntries))) ∧
      (exampleSheet.occ = none → ∃ k : BlockKey, exampleSheet.placements = [⟨0, 0, k⟩])) :=
  ⟨by decide,
   plan_packing_no_overlap true exampleEntries exampleSheet (by decide)⟩

/-! ## Claim C8 lemmas -/

theorem place_in_sheet_true_occ {sh : Sheet} {it : BlockSpec} {sh2 : Sheet}
    (h : place_in_sheet sh it = (sh2, true)) : sh2.occ.isSome = true := by
  rcases hocc : sh.occ with _ | occ
  · rw [place_in_sheet_none hocc] at h
    injection h with h1 h2
    exact absurd h2 (by simp)
  · rcases hspot : find_spot occ (tiles_needed it.w) (tiles_needed it.h) with _ | ⟨x0, y0⟩
    · rw [place_in_sheet_notfound hocc hspot] at h
      injection h with h1 h2
      exact absurd h2 (by simp)
    · rw [place_in_sheet_found hocc hspot] at h
      injection h with h1 _
      rw [← h1]
      rfl

theorem place_in_sheet_fst_occ {sh : Sheet} {it : BlockSpec}
    (h : sh.occ.isSome = true) : ((place_in_sheet sh it).1).occ.isSome = true := by
  rcases hocc : sh.occ with _ | occ
  · rw [hocc] at h
    simp at h
  · rcases hspot : find_spot occ (tiles_needed it.w) (tiles_needed it.h) with _ | ⟨x0, y0⟩
    · rw [place_in_sheet_notfound hocc hspot]
      rw [show ((sh, false).1) = sh from rfl, hocc]
      rfl
    · rw [place_in_sheet_found hocc hspot]
      rfl

theorem place_first_keeps_none {it : BlockSpec} :
    ∀ {sheets sheets' : List Sheet}, place_first sheets it = some sheets' →
      ∀ sh ∈ sheets, sh.occ = none → sh ∈ sheets' := by
  intro sheets
  induction sheets with
  | nil =>
    intro sheets' h
    simp [place_first] at h
  | cons sh0 rest ih =>
    intro sheets' h sh hm hoccn
    unfold place_first at h
    by_cases hn : sh0.occ.isNone = true
    · rw [if_pos hn] at h
      match hrec : place_first rest it with
      | none =>
        rw [hrec] at h
        simp at h
      | some rest' =>
        rw [hrec] at h
        simp only [Option.map_some', Option.some.injEq] at h
        subst h
        rcases List.mem_cons.1 hm with rfl | hmem
        · exact List.mem_cons_self _ _
        · exact List.mem_cons_of_mem _ (ih hrec sh hmem hoccn)
    · rw [if_neg hn] at h
      rcases hp : place_in_sheet sh0 it with ⟨sh2, b⟩
      rw [hp] at h
      cases b
      · dsimp only at h
        match hrec : place_first rest it with
        | none =>
          rw [hrec] at h
          simp at h
        | some rest' =>
          rw [hrec] at h
          simp only [Option.map_some', Option.some.injEq] at h
          subst h
          rcases List.mem_cons.1 hm with rfl | hmem
          · exact List.mem_cons_self _ _
          · exact List.mem_cons_of_mem _ (ih hrec sh hmem hoccn)
      · dsimp only at h
        injection h with h
        subst h
        rcases List.mem_cons.1 hm with rfl | hmem
        · exfalso
          apply hn
          rw [hoccn]
          rfl
        · exact List.mem_cons_of_mem _ hmem

theorem place_first_none_source {it : BlockSpec} :
    ∀ {sheets sheets' : List Sheet}, place_first sheets it = some sheets' →
      ∀ sh' ∈ sheets', sh'.occ = none → sh' ∈ sheets := by
  intro sheets
  induction sheets with
  | nil =>
    intro sheets' h
    simp [place_first] at h
  | cons sh0 rest ih =>
    intro sheets' h sh' hm hoccn
    unfold place_first at h
    by_cases hn : sh0.occ.isNone = true
    · rw [if_pos hn] at h
      match hrec : place_first rest it with
      | none =>
        rw [hrec] at h
        simp at h
      | some rest' =>
        rw [hrec] at h
        simp only [Option.map_some', Option.some.injEq] at h
        subst h
        rcases List.mem_cons.1 hm with rfl | hmem
        · exact List.mem_cons_self _ _
        · exact List.mem_cons_of_mem _ (ih hrec sh' hmem hoccn)
    · rw [if_neg hn] at h
      rcases hp : place_in_sheet sh0 it with ⟨sh2, b⟩
      rw [hp] at h
      cases b
      · dsimp only at h
        match hrec : place_first rest it with
        | none =>
          rw [hrec] at h
          simp at h
        | some rest' =>
          rw [hrec] at h
          simp only [Option.map_some', Option.some.injEq] at h
          subst h
          rcases List.mem_cons.1 hm with rfl | hmem
          · exact List.mem_cons_self _ _
          · exact List.mem_cons_of_mem _ (ih hrec sh' hmem hoccn)
      · dsimp only at h
        injection h with h
        subst h
        rcases List.mem_cons.1 hm with rfl | hmem
        · exfalso
          have := place_in_sheet_true_occ hp
          rw [hoccn] at this
          simp at this
        · exact List.mem_cons_of_mem _ hmem

theorem pack_step_keeps_none {it : BlockSpec} {sheets : List Sheet} {sh : Sheet}
    (hm : sh ∈ sheets) (hn : sh.occ = none) : sh ∈ pack_step sheets it := by
  unfold pack_step
  by_cases hov : it.w > maxPx ∨ it.h > maxPx
  · rw [if_pos hov]
    exact List.mem_append_left _ hm
  · rw [if_neg hov]
    match hpf : place_first sheets it with
    | some sheets' => exact place_first_keeps_none hpf sh hm hn
    | none => exact List.mem_append_left _ hm

theorem pack_fold_keeps_none :
    ∀ (items : List BlockSpec) (sheets : List Sheet) {sh : Sheet},
      sh ∈ sheets → sh.occ = none → sh ∈ items.foldl pack_step sheets := by
  intro items
  induction items with
  | nil =>
    intro sheets sh hm _
    simpa using hm
  | cons it rest ih =>
    intro sheets sh hm hn
    rw [List.foldl_cons]
    exact ih _ (pack_step_keeps_none hm hn) hn

theorem pack_step_none_source {it : BlockSpec} {sheets : List Sheet} :
    ∀ sh' ∈ pack_step sheets it, sh'.occ = none →
      sh' ∈ sheets ∨
      (sh' = (⟨it.w, it.h, [⟨0, 0, it.block_key⟩], none⟩ : Sheet) ∧
       (it.w > maxPx ∨ it.h > maxPx)) := by
  unfold pack_step
  by_cases hov : it.w > maxPx ∨ it.h > maxPx
  · rw [if_pos hov]
    intro sh' hm hn
    rcases List.mem_append.1 hm with hold | hnew
    · exact Or.inl hold
    · exact Or.inr ⟨List.mem_singleton.1 hnew, hov⟩
  · rw [if_neg hov]
    match hpf : place_first sheets it with
    | some sheets' =>
      intro sh' hm hn
      exact Or.inl (place_first_none_source hpf sh' hm hn)
    | none =>
      intro sh' hm hn
      rcases List.mem_append.1 hm with hold | hnew
      · exact Or.inl hold
      · exfalso
        rw [List.mem_singleton.1 hnew] at hn
        have : ((place_in_sheet new_sheet it).1).occ.isSome = true :=
          place_in_sheet_fst_occ (by rfl)
        rw [hn] at this
        simp at this

theorem pack_fold_none_char (specs0 : List BlockSpec) :
    ∀ (items : List BlockSpec) (sheets : List Sheet),
      (∀ it ∈ items, it ∈ specs0) →
      (∀ sh ∈ sheets, sh.occ = none →
        ∃ it ∈ specs0, (it.w > maxPx ∨ it.h > maxPx) ∧
          sh.placements = [⟨0, 0, it.block_key⟩]) →
      ∀ sh ∈ items.foldl pack_step sheets, sh.occ = none →
        ∃ it ∈ specs0, (it.w > maxPx ∨ it.h > maxPx) ∧
          sh.placements = [⟨0, 0, it.block_key⟩] := by
  intro items
  induction items with
  | nil =>
    intro sheets _ hbase sh hm hn
    exact hbase sh (by simpa using hm) hn
  | cons it rest ih =>
    intro sheets hsub hbase
    rw [List.foldl_cons]
    apply ih _ (fun j hj => hsub j (List.mem_cons_of_mem _ hj))
    intro sh hm hn
    rcases pack_step_none_source sh hm hn with hold | ⟨rfl, hov⟩
    · exact hbase sh hold hn
    · exact ⟨it, hsub it (List.mem_cons_self _ _), hov, rfl⟩

/-! ## Claim C8 -/

/-- C8: Oversized handling.  Every block spec whose pixel width or height
exceeds the sheet capacity `EXPORT_SHEET_PX` is placed alone at (0, 0) on a
dedicated sheet (no occupancy grid), and every dedicated sheet carries
exactly one such block — no other block is ever placed on it. -/
theorem pack_oversized_dedicated (items : List BlockSpec) :
    (∀ it ∈ items, (it.w > EXPORT_SHEET_PX ∨ it.h > EXPORT_SHEET_PX) →
      ∃ sh ∈ pack_all items, sh.occ = none ∧
        sh.placements = [⟨0, 0, it.block_key⟩]) ∧
    (∀ sh ∈ pack_all items, sh.occ = none →
      ∃ it ∈ items, (it.w > EXPORT_SHEET_PX ∨ it.h > EXPORT_SHEET_PX) ∧
        sh.placements = [⟨0, 0, it.block_key⟩]) := by
  have hmx : maxPx = EXPORT_SHEET_PX := by
    unfold maxPx
    rfl
  constructor
  · intro it hm hov
    rw [← hmx] at hov
    suffices h : ∀ (its : List BlockSpec) (sheets : List Sheet) {jt : BlockSpec},
        jt ∈ its → (jt.w > maxPx ∨ jt.h > maxPx) →
        ∃ sh ∈ its.foldl pack_step sheets, sh.occ = none ∧
          sh.placements = [⟨0, 0, jt.block_key⟩] by
      exact h items [] hm hov
    intro its
    induction its with
    | nil =>
      intro sheets jt h
      simp at h
    | cons kt rest ih =>
      intro sheets jt hmem hov2
      rw [List.foldl_cons]
      rcases List.mem_cons.1 hmem with rfl | htail
      · have hin : (⟨jt.w, jt.h, [⟨0, 0, jt.block_key⟩], none⟩ : Sheet)
            ∈ pack_step sheets jt := by
          unfold pack_step
          rw [if_pos hov2]
          exact List.mem_append_right _ (List.mem_singleton.2 rfl)
        exact ⟨_, pack_fold_keeps_none rest _ hin rfl, rfl, rfl⟩
      · exact ih _ htail hov2
  · intro sh hm hn
    have := pack_fold_none_char items items [] (fun j hj => hj) (by simp) sh hm hn
    obtain ⟨it, hit, hov, hpl⟩ := this
    exact ⟨it, hit, by rw [← hmx]; exact hov, hpl⟩

/-- Witness for C8: a 600 px wide block on 256 px sheets gets its own
dedicated sheet. -/
theorem pack_oversized_dedicated_witness :
    ((⟨BlockKey.component 9, 600, 20, 1, 1⟩ : BlockSpec) ∈ examplePackSpecs ∧
      ((600 : Nat) > EXPORT_SHEET_PX ∨ (20 : Nat) > EXPORT_SHEET_PX)) ∧
    ∃ sh ∈ pack_all examplePackSpecs, sh.occ = none ∧
      sh.placements = [⟨0, 0, BlockKey.component 9⟩] :=
  ⟨⟨by decide, by decide⟩,
   (pack_oversized_dedicated examplePackSpecs).1
     ⟨BlockKey.component 9, 600, 20, 1, 1⟩ (by decide) (by decide)⟩

/-! ## Claim C10 lemmas -/

theorem updateAssoc_mem {k : BlockKey} {v : PlacementPos} :
    ∀ {l : List (BlockKey × PlacementPos)}, ∀ e ∈ updateAssoc l k v,
      e = (k, v) ∨ e ∈ l := by
  intro l
  induction l with
  | nil =>
    intro e he
    rw [updateAssoc] at he
    exact Or.inl (List.mem_singleton.1 he)
  | cons p rest ih =>
    obtain ⟨k', v'⟩ := p
    intro e he
    rw [updateAssoc] at he
    by_cases hk : k' = k
    · rw [if_pos hk] at he
      rcases List.mem_cons.1 he with rfl | hmem
      · exact Or.inl rfl
      · exact Or.inr (List.mem_cons_of_mem _ hmem)
    · rw [if_neg hk] at he
      rcases List.mem_cons.1 he with rfl | hmem
      · exact Or.inr (List.mem_cons_self _ _)
      · rcases ih e hmem with h | h
        · exact Or.inl h
        · exact Or.inr (List.mem_cons_of_mem _ h)

theorem lookupAssoc_mem :
    ∀ {l : List (BlockKey × PlacementPos)} {k : BlockKey} {v : PlacementPos},
      lookupAssoc l k = some v → (k, v) ∈ l := by
  intro l
  induction l with
  | nil =>
    intro k v h
    rw [lookupAssoc] at h
    exact absurd h (by simp)
  | cons p rest ih =>
    obtain ⟨k', v'⟩ := p
    intro k v h
    rw [lookupAssoc] at h
    by_cases hk : k' = k
    · rw [if_pos hk] at h
      injection h with h
      rw [← h, hk]
      exact List.mem_cons_self _ _
    · rw [if_neg hk] at h
      exact List.mem_cons_of_mem _ (ih h)

theorem index_inner_fold_ok {specs : List BlockSpec} {sheets : List Sheet}
    {i : Nat} (hi : i < sheets.length) {sh : Sheet}
    (hsh : sheets.get ⟨i, hi⟩ = sh) :
    ∀ (pls : List Placement) (idx : List (BlockKey × PlacementPos)),
      (∀ pl ∈ pls, pl ∈ sh.placements) →
      (∀ e ∈ idx, IndexEntryOk sheets e) →
      ∀ e ∈ pls.foldl (fun idx pl =>
          if (specs.find? (fun s => s.block_key == pl.block_key)).isSome then
            updateAssoc idx pl.block_key ⟨i + 1, pl.x, pl.y⟩
          else idx) idx, IndexEntryOk sheets e := by
  intro pls
  induction pls with
  | nil =>
    intro idx _ hidx
    simpa using hidx
  | cons pl rest ih =>
    intro idx hpls hidx
    rw [List.foldl_cons]
    apply ih _ (fun q hq => hpls q (List.mem_cons_of_mem _ hq))
    by_cases hf : ((specs.find? (fun s => s.block_key == pl.block_key)).isSome : Bool) = true
    · rw [if_pos hf]
      intro e he
      rcases updateAssoc_mem e he with rfl | hmem
      · refine ⟨i, hi, rfl, pl, ?_, rfl, rfl, rfl⟩
        rw [hsh]
        exact hpls pl (List.mem_cons_self _ _)
      · exact hidx e hmem
    · rw [if_neg hf]
      exact hidx

theorem index_go_ok {specs : List BlockSpec} {sheets : List Sheet} :
    ∀ (rest : List Sheet) (k : Nat) (pre : List Sheet)
      (idx : List (BlockKey × PlacementPos)),
      sheets = pre ++ rest → k = pre.length →
      (∀ e ∈ idx, IndexEntryOk sheets e) →
      ∀ e ∈ build_placement_index_go specs k rest idx,
        IndexEntryOk sheets e := by
  intro rest
  induction rest with
  | nil =>
    intro k pre idx _ _ hidx
    rw [build_placement_index_go]
    exact hidx
  | cons sh rest' ih =>
    intro k pre idx heq hk hidx
    subst hk
    rw [build_placement_index_go]
    have heq' : sheets = (pre ++ [sh]) ++ rest' := by
      rw [heq, List.append_assoc]
      rfl
    have hi : pre.length < sheets.length := by
      rw [heq]
      simp
    have hget : sheets.get ⟨pre.length, hi⟩ = sh := by
      subst heq
      rw [List.get_eq_getElem]
      rw [List.getElem_append_right (Nat.le_refl _)]
      simp
    apply ih (pre.length + 1) (pre ++ [sh]) _ heq' (by simp)
    exact index_inner_fold_ok hi hget sh.placements idx (fun q hq => hq) hidx

/-! ## Claim C10 -/

/-- C10 (implicit): sheet indices in the plan are 1-based.  Every entry the
placement index returns for a block key records `sheet = i + 1` where `i` is
the zero-based position in the sheets list of a sheet whose placements
contain that key at the recorded pixel position; in particular the first
sheet is referenced as sheet 1 and no entry ever references sheet 0.
Components attached by `_plan_component_sheet_layout` copy exactly these
looked-up values. -/
theorem placement_index_one_based (specs : List BlockSpec) (sheets : List Sheet)
    (bk : BlockKey) (pos : PlacementPos)
    (hlook : lookupAssoc (build_placement_index specs sheets) bk = some pos) :
    1 ≤ pos.sheet ∧
    ∃ i, ∃ h : i < sheets.length, pos.sheet = i + 1 ∧
      ∃ pl ∈ (sheets.get ⟨i, h⟩).placements,
        pl.block_key = bk ∧ pos.x = pl.x ∧ pos.y = pl.y := by
  have hmem := lookupAssoc_mem hlook
  have hok : IndexEntryOk sheets (bk, pos) :=
    index_go_ok sheets 0 [] [] rfl rfl (by simp) (bk, pos) hmem
  obtain ⟨i, h, hsheet, pl, hpl, hkey, hx, hy⟩ := hok
  dsimp only at hsheet hkey hx hy
  exact ⟨by omega, i, h, hsheet, pl, hpl, hkey, hx, hy⟩

/-- Witness for C10: in the example pack, block key `component 1` is
recorded on sheet 2 (the second sheet, zero-based position 1) at pixel
(32, 0). -/
theorem placement_index_one_based_witness :
    (lookupAssoc (build_placement_index examplePackSpecs
        (pack_all (sortBlocks examplePackSpecs))) (BlockKey.component 1)
      = some ⟨2, 32, 0⟩) ∧
    (1 ≤ (2 : Nat) ∧
    ∃ i, ∃ h : i < (pack_all (sortBlocks examplePackSpecs)).length,
      (2 : Nat) = i + 1 ∧
      ∃ pl ∈ ((pack_all (sortBlocks examplePackSpecs)).get ⟨i, h⟩).placements,
        pl.block_key = BlockKey.component 1 ∧ (32 : Nat) = pl.x ∧ (0 : Nat) = pl.y) :=
  ⟨by decide,
   placement_index_one_based examplePackSpecs (pack_all (sortBlocks examplePackSpecs))
     (BlockKey.component 1) ⟨2, 32, 0⟩ (by decide)⟩

/-! ## Claim C7 -/

/-- C7: Packing determinism.  The planner is a pure function of its input:
running `_plan_component_sheet_layout` twice on the same page/entry snapshot
with the same `group_buttons_by_size` policy produces identical output —
the same sheets with the same placements in the same order, and the same
placement index.  (In this embedding the planner's collection, sort,
placement and index phases are total functions, so two runs on equal inputs
are equal.) -/
theorem plan_deterministic (group1 group2 : Bool) (e1 e2 : List EntrySnap)
    (hg : group1 = group2) (he : e1 = e2) :
    plan_for_entries group1 e1 = plan_for_entries group2 e2 := by
  rw [hg, he]

/-- Witness for C7 at the concrete example snapshot. -/
theorem plan_deterministic_witness :
    ((true : Bool) = true ∧ exampleEntries = exampleEntries) ∧
    plan_for_entries true exampleEntries = plan_for_entries true exampleEntries :=
  ⟨⟨rfl, rfl⟩, plan_deterministic true true exampleEntries exampleEntries rfl rfl⟩
/-! ## Claim C6 lemmas -/

theorem jGet_dictSet_self (l : List (String × J)) (k : String) (v : J) :
    jGet (dictSet l k v) k = some v := by
  induction l with
  | nil => simp [dictSet, jGet]
  | cons p rest ih =>
    obtain ⟨a, b⟩ := p
    by_cases ha : a = k
    · rw [dictSet, if_pos ha, jGet, if_pos rfl]
    · rw [dictSet, if_neg ha, jGet, if_neg ha]
      exact ih

theorem jGet_dictSet_ne (l : List (String × J)) (k : String) (v : J) (key : String)
    (h : k ≠ key) : jGet (dictSet l k v) key = jGet l key := by
  induction l with
  | nil => simp [dictSet, jGet, h]
  | cons p rest ih =>
    obtain ⟨a, b⟩ := p
    by_cases ha : a = k
    · subst ha
      rw [dictSet, if_pos rfl, jGet, if_neg h, jGet, if_neg h]
    · rw [dictSet, if_neg ha, jGet, jGet]
      by_cases ha2 : a = key
      · rw [if_pos ha2, if_pos ha2]
      · rw [if_neg ha2, if_neg ha2]
        exact ih

/-- Looking up any key other than `version` / `pages` in a version-3
equivalent document reads the original legacy document. -/
theorem jGet_v3 (kvs : List (String × J)) (v w : J) (key : String)
    (h1 : "version" ≠ key) (h2 : "pages" ≠ key) :
    jGet (dictSet (dictSet kvs "version" v) "pages" w) key = jGet kvs key := by
  rw [jGet_dictSet_ne _ _ _ _ h2, jGet_dictSet_ne _ _ _ _ h1]

theorem grid_n_of_v3 (kvs : List (String × J)) (v w : J) :
    grid_n_of (dictSet (dictSet kvs "version" v) "pages" w) = grid_n_of kvs := by
  rw [grid_n_of, grid_n_of, jGet_v3 _ _ _ _ (by decide) (by decide)]

/-- The header validation accepts a legacy document (version 1 or 2, valid
grid size, no pages key) and routes it through the single-page wrapper. -/
theorem validate_header_legacy {kvs : List (String × J)}
    (hv : (pyEqInt (jGet kvs "version") 1 || pyEqInt (jGet kvs "version") 2) = true)
    (hg : (pyEqInt (jGet kvs "grid_n") 16 || pyEqInt (jGet kvs "grid_n") 32) = true)
    (hp : pagesIsNone kvs = true) :
    validate_header (.obj kvs) = .ok (kvs, grid_n_of kvs, [wrapper_page kvs]) := by
  have hv3 : (pyEqInt (jGet kvs "version") 1 || pyEqInt (jGet kvs "version") 2 ||
      pyEqInt (jGet kvs "version") 3) = true := by
    rw [hv]; simp
  have hc1 : ¬((!(pyEqInt (jGet kvs "version") 1 || pyEqInt (jGet kvs "version") 2 ||
      pyEqInt (jGet kvs "version") 3)) = true) := by
    rw [hv3]; simp
  have hc2 : ¬((!(pyEqInt (jGet kvs "grid_n") 16 ||
      pyEqInt (jGet kvs "grid_n") 32)) = true) := by
    rw [hg]; simp
  simp only [validate_header]
  rw [if_neg hc1, if_neg hc2, if_pos hp]

/-- The header validation accepts any document obtained by setting
`version` to 3 and `pages` to a non-empty list, and returns that list. -/
theorem validate_header_setv3 {kvs : List (String × J)} {pl : List J}
    (hg : (pyEqInt (jGet kvs "grid_n") 16 || pyEqInt (jGet kvs "grid_n") 32) = true)
    (hne : pl ≠ []) :
    validate_header (.obj (dictSet (dictSet kvs "version" (.int 3)) "pages" (.arr pl))) =
      .ok (dictSet (dictSet kvs "version" (.int 3)) "pages" (.arr pl),
           grid_n_of kvs, pl) := by
  have hver : jGet (dictSet (dictSet kvs "version" (.int 3)) "pages"
      (.arr pl)) "version" = some (.int 3) := by
    rw [jGet_dictSet_ne _ _ _ _ (by decide), jGet_dictSet_self]
  have hpag : jGet (dictSet (dictSet kvs "version" (.int 3)) "pages"
      (.arr pl)) "pages" = some (.arr pl) :=
    jGet_dictSet_self _ _ _
  have hgr : jGet (dictSet (dictSet kvs "version" (.int 3)) "pages"
      (.arr pl)) "grid_n" = jGet kvs "grid_n" :=
    jGet_v3 _ _ _ _ (by decide) (by decide)
  have hpn : pagesIsNone (dictSet (dictSet kvs "version" (.int 3)) "pages"
      (.arr pl)) = false := by
    simp [pagesIsNone, hpag, J.isNull]
  simp only [validate_header]
  rw [if_neg (show ¬((!(pyEqInt (jGet (dictSet (dictSet kvs "version" (.int 3)) "pages"
        (.arr pl)) "version") 1 ||
      pyEqInt (jGet (dictSet (dictSet kvs "version" (.int 3)) "pages"
        (.arr pl)) "version") 2 ||
      pyEqInt (jGet (dictSet (dictSet kvs "version" (.int 3)) "pages"
        (.arr pl)) "version") 3)) = true) by
    rw [hver]; decide)]
  rw [if_neg (show ¬((!(pyEqInt (jGet (dictSet (dictSet kvs "version" (.int 3)) "pages"
        (.arr pl)) "grid_n") 16 ||
      pyEqInt (jGet (dictSet (dictSet kvs "version" (.int 3)) "pages"
        (.arr pl)) "grid_n") 32)) = true) by rw [hgr, hg]; simp)]
  rw [if_neg (show ¬(pagesIsNone (dictSet (dictSet kvs "version" (.int 3)) "pages"
      (.arr pl)) = true) by rw [hpn]; simp)]
  simp only [hpag]
  rw [if_neg (show ¬((pl.isEmpty) = true) by
    cases pl with
    | nil => exact absurd rfl hne
    | cons a t => simp)]
  rw [grid_n_of_v3]

/-- Parsing the JSON of a serialised rectangle recovers it. -/
theorem parseRectObj_rect_to_json (r : Rect) : parseRectObj (rect_to_json r) = some r := rfl

theorem filterMap_rect_to_json (rects : List Rect) :
    (rects.map rect_to_json).filterMap parseRectObj = rects := by
  induction rects with
  | nil => rfl
  | cons r rest ih =>
    simp only [List.map_cons, List.filterMap_cons, parseRectObj_rect_to_json, ih]

/-- The parsed legacy grid is a well-formed `n` × `n` grid. -/
theorem legacy_parsed_grid_wf {n : Nat} {kvs : List (String × J)} {rows : List J}
    (hbg : jGet kvs "background" = some (.arr rows))
    (hlen : rows.length = n)
    (hrows : ∀ r ∈ rows, rowWF n r = true) :
    WFGrid n (legacy_parsed_grid kvs) := by
  simp only [legacy_parsed_grid, hbg]
  constructor
  · simpa using hlen
  · intro row hrow
    obtain ⟨r, hr, hmap⟩ := List.mem_map.mp hrow
    have := hrows r hr
    cases r with
    | arr l =>
      simp only [rowWF, beq_iff_eq] at this
      subst hmap
      simpa using this
    | null => simp [rowWF] at this
    | bool b => simp [rowWF] at this
    | int n => simp [rowWF] at this
    | str s => simp [rowWF] at this
    | obj o => simp [rowWF] at this

/-- The legacy wrapper page's background parses to the raw boolean grid. -/
theorem parseBackground_wrapper {kvs : List (String × J)} {rows : List J}
    (hbg : jGet kvs "background" = some (.arr rows))
    (hlen : rows.length = grid_n_of kvs)
    (hrows : ∀ r ∈ rows, rowWF (grid_n_of kvs) r = true) :
    parseBackground (grid_n_of kvs) (wrapper_kvs kvs) = .ok (legacy_parsed_grid kvs) := by
  have h1 : jGet (wrapper_kvs kvs) "background_rects" = none := rfl
  have h2 : jGet (wrapper_kvs kvs) "background" = some (J.arr rows) := by
    show some ((jGet kvs "background").getD J.null) = some (J.arr rows)
    rw [hbg]; rfl
  simp only [parseBackground, h1, h2]
  rw [if_pos ⟨hlen, List.all_eq_true.mpr hrows⟩]
  simp only [legacy_parsed_grid, hbg]

/-- The version-3 page's `background_rects` decompress to the same grid. -/
theorem parseBackground_v3 {kvs : List (String × J)} {rows : List J}
    (hbg : jGet kvs "background" = some (.arr rows))
    (hlen : rows.length = grid_n_of kvs)
    (hrows : ∀ r ∈ rows, rowWF (grid_n_of kvs) r = true) :
    parseBackground (grid_n_of kvs) (v3_page_kvs kvs) = .ok (legacy_parsed_grid kvs) := by
  have h1 : jGet (v3_page_kvs kvs) "background_rects"
      = some (J.arr ((background_to_rects (grid_n_of kvs)
          (legacy_parsed_grid kvs)).map rect_to_json)) := rfl
  simp only [parseBackground, h1]
  rw [filterMap_rect_to_json,
    background_roundtrip_aux _ _ (legacy_parsed_grid_wf hbg hlen hrows)]

/-- The header validation accepts a legacy document that carries a
non-empty `pages` wrapper (version 1 or 2, valid grid size). -/
theorem validate_header_wrapped {kvs : List (String × J)} {l : List J}
    (hv : (pyEqInt (jGet kvs "version") 1 || pyEqInt (jGet kvs "version") 2) = true)
    (hg : (pyEqInt (jGet kvs "grid_n") 16 || pyEqInt (jGet kvs "grid_n") 32) = true)
    (hpages : jGet kvs "pages" = some (.arr l))
    (hne : l ≠ []) :
    validate_header (.obj kvs) = .ok (kvs, grid_n_of kvs, l) := by
  have hv3 : (pyEqInt (jGet kvs "version") 1 || pyEqInt (jGet kvs "version") 2 ||
      pyEqInt (jGet kvs "version") 3) = true := by
    rw [hv]; simp
  have hc1 : ¬((!(pyEqInt (jGet kvs "version") 1 || pyEqInt (jGet kvs "version") 2 ||
      pyEqInt (jGet kvs "version") 3)) = true) := by
    rw [hv3]; simp
  have hc2 : ¬((!(pyEqInt (jGet kvs "grid_n") 16 ||
      pyEqInt (jGet kvs "grid_n") 32)) = true) := by
    rw [hg]; simp
  have hc3 : ¬(pagesIsNone kvs = true) := by
    simp [pagesIsNone, hpages, J.isNull]
  have hc4 : ¬(l.isEmpty = true) := by
    cases l with
    | nil => exact absurd rfl hne
    | cons a t => simp
  simp only [validate_header]
  rw [if_neg hc1, if_neg hc2, if_neg hc3]
  simp only [hpages]
  rw [if_neg hc4]

/-- A raw-grid page's background parses to its boolean grid. -/
theorem parseBackground_raw_page {n : Nat} {pkvs : List (String × J)} {rows : List J}
    (hbr : jGet pkvs "background_rects" = none)
    (hbgp : jGet pkvs "background" = some (.arr rows))
    (hlenp : rows.length = n)
    (hrowsp : ∀ r ∈ rows, rowWF n r = true) :
    parseBackground n pkvs = .ok (legacy_parsed_grid pkvs) := by
  simp only [parseBackground, hbr, hbgp]
  rw [if_pos ⟨hlenp, List.all_eq_true.mpr hrowsp⟩]
  simp only [legacy_parsed_grid, hbgp]

/-- The compressed page produced from a raw-grid page decompresses to the
same boolean grid. -/
theorem parseBackground_v3_page {n : Nat} {pkvs : List (String × J)} {rows : List J}
    (hbgp : jGet pkvs "background" = some (.arr rows))
    (hlenp : rows.length = n)
    (hrowsp : ∀ r ∈ rows, rowWF n r = true) :
    parseBackground n [("page_id", (jGet pkvs "page_id").getD (.int 1)),
      ("background_rects",
        .arr ((background_to_rects n (legacy_parsed_grid pkvs)).map rect_to_json)),
      ("entries", (jGet pkvs "entries").getD (.arr []))] = .ok (legacy_parsed_grid pkvs) := by
  have h1 : jGet [("page_id", (jGet pkvs "page_id").getD (.int 1)),
      ("background_rects",
        .arr ((background_to_rects n (legacy_parsed_grid pkvs)).map rect_to_json)),
      ("entries", (jGet pkvs "entries").getD (.arr []))] "background_rects"
      = some (.arr ((background_to_rects n (legacy_parsed_grid pkvs)).map rect_to_json)) := rfl
  simp only [parseBackground, h1]
  rw [filterMap_rect_to_json,
    background_roundtrip_aux n (legacy_parsed_grid pkvs)
      (legacy_parsed_grid_wf hbgp hlenp hrowsp)]

/-- Loading a list of well-formed entry objects cannot raise. -/
theorem loadEntriesGo_ok (n : Nat) :
    ∀ (objs : List J) (es : List (Int × Entry)) (cg : List (List (Option Int)))
      (maxId : Int) (st : UidSt), (∀ o ∈ objs, entryWF o = true) →
      ∃ r, loadEntriesGo n objs es cg maxId st = .ok r := by
  intro objs
  induction objs with
  | nil => exact fun es cg maxId st _ => ⟨_, rfl⟩
  | cons o rest ih =>
    intro es cg maxId st hwf
    have hrest : ∀ q ∈ rest, entryWF q = true :=
      fun q hq => hwf q (List.mem_cons_of_mem _ hq)
    have ho := hwf o (List.mem_cons_self _ _)
    cases o with
    | null => simp [entryWF] at ho
    | bool b => simp [entryWF] at ho
    | int k => simp [entryWF] at ho
    | str t => simp [entryWF] at ho
    | arr l => simp [entryWF] at ho
    | obj okvs =>
      simp only [entryWF, Bool.and_eq_true] at ho
      obtain ⟨⟨hrect, hid⟩, hmeta⟩ := ho
      simp only [loadEntriesGo]
      rcases htool : (if toolStr (jGet okvs "tool") = "button_press" then
          some Tool.button_standard
        else Tool.ofString (toolStr (jGet okvs "tool"))) with _ | tool
      · exact ih es cg maxId st hrest
      · rcases hrv : jGet okvs "rect" with _ | rv
        · rw [hrv] at hrect; simp at hrect
        · rw [hrv] at hrect
          obtain ⟨rect0, hpr⟩ := Option.isSome_iff_exists.mp hrect
          simp only [hpr]
          rcases hiv : jGet okvs "id" with _ | iv
          · rw [hiv] at hid; simp at hid
          · rw [hiv] at hid
            obtain ⟨eid, hei⟩ := Option.isSome_iff_exists.mp hid
            simp only [hei]
            obtain ⟨meta, hm⟩ := Option.isSome_iff_exists.mp hmeta
            rcases halloc : alloc_uid st (jGet okvs "uid") with ⟨uid, st2⟩
            simp only [halloc, hm]
            exact ih _ _ _ _ hrest

/-- The legacy wrapper page and the version-3 page load identically. -/
theorem loadOnePage_wrapper_eq_v3 {kvs : List (String × J)} {rows : List J}
    (hbg : jGet kvs "background" = some (.arr rows))
    (hlen : rows.length = grid_n_of kvs)
    (hrows : ∀ r ∈ rows, rowWF (grid_n_of kvs) r = true) (st : UidSt) :
    loadOnePage (grid_n_of kvs) (wrapper_page kvs) st =
    loadOnePage (grid_n_of kvs) (v3_page kvs) st := by
  have hpid1 : jGet (wrapper_kvs kvs) "page_id" = some (J.int 1) := rfl
  have hpid2 : jGet (v3_page_kvs kvs) "page_id" = some (J.int 1) := rfl
  have hent1 : jGet (wrapper_kvs kvs) "entries" = some (legacy_entries_val kvs) := rfl
  have hent2 : jGet (v3_page_kvs kvs) "entries" = some (legacy_entries_val kvs) := rfl
  rw [wrapper_page, v3_page]
  simp only [loadOnePage, hpid1, hpid2, Option.getD_some,
    show pyInt (J.int 1) = some 1 from rfl,
    parseBackground_wrapper hbg hlen hrows, parseBackground_v3 hbg hlen hrows,
    entriesListOf, hent1, hent2]

/-- Loading the legacy wrapper page succeeds when the entry objects are
well formed. -/
theorem loadOnePage_wrapper_ok {kvs : List (String × J)} {rows : List J}
    {objs : List J}
    (hbg : jGet kvs "background" = some (.arr rows))
    (hlen : rows.length = grid_n_of kvs)
    (hrows : ∀ r ∈ rows, rowWF (grid_n_of kvs) r = true)
    (hent : legacy_entries_val kvs = .arr objs)
    (hwf : ∀ o ∈ objs, entryWF o = true) (st : UidSt) :
    ∃ r, loadOnePage (grid_n_of kvs) (wrapper_page kvs) st = .ok r := by
  have hpid1 : jGet (wrapper_kvs kvs) "page_id" = some (J.int 1) := rfl
  have hent1 : jGet (wrapper_kvs kvs) "entries" = some (legacy_entries_val kvs) := rfl
  obtain ⟨r, hgo⟩ := loadEntriesGo_ok (grid_n_of kvs) objs []
    (emptyCellGrid (grid_n_of kvs)) 0 st hwf
  obtain ⟨es, cg, maxId, st2⟩ := r
  refine ⟨(1, ⟨1, legacy_parsed_grid kvs, es, cg, maxId + 1⟩, st2), ?_⟩
  rw [wrapper_page]
  simp only [loadOnePage, hpid1, Option.getD_some,
    show pyInt (J.int 1) = some 1 from rfl,
    parseBackground_wrapper hbg hlen hrows, entriesListOf, hent1, hent, hgo]

/-- A raw-grid page loads exactly like its compressed version-3 equivalent,
and loading it succeeds. -/
theorem loadOnePage_raw {n : Nat} {p : J} (hwf : legacyPageWF n p = true) (st : UidSt) :
    loadOnePage n p st = loadOnePage n (v3_page_of n p) st ∧
    ∃ r, loadOnePage n p st = .ok r := by
  cases p with
  | null => simp [legacyPageWF] at hwf
  | bool b => simp [legacyPageWF] at hwf
  | int k => simp [legacyPageWF] at hwf
  | str t => simp [legacyPageWF] at hwf
  | arr a => simp [legacyPageWF] at hwf
  | obj pkvs =>
    simp only [legacyPageWF, Bool.and_eq_true] at hwf
    obtain ⟨⟨⟨hbr, hbgc⟩, hpidc⟩, hentc⟩ := hwf
    have hbr2 : jGet pkvs "background_rects" = none :=
      Option.isNone_iff_eq_none.mp hbr
    obtain ⟨pid, hpid⟩ := Option.isSome_iff_exists.mp hpidc
    rcases hbgp : jGet pkvs "background" with _ | v
    · rw [hbgp] at hbgc; simp at hbgc
    · cases v with
      | null => simp [hbgp] at hbgc
      | bool b => simp [hbgp] at hbgc
      | int k => simp [hbgp] at hbgc
      | str t => simp [hbgp] at hbgc
      | obj o => simp [hbgp] at hbgc
      | arr rows =>
        simp only [hbgp, Bool.and_eq_true, beq_iff_eq, List.all_eq_true] at hbgc
        obtain ⟨hlenp, hrowsp⟩ := hbgc
        rcases hel : (jGet pkvs "entries").getD (.arr []) with _ | b | k | t | objs | o
        · simp only [hel] at hentc; simp at hentc
        · simp only [hel] at hentc; simp at hentc
        · simp only [hel] at hentc; simp at hentc
        · simp only [hel] at hentc; simp at hentc
        · simp only [hel, List.all_eq_true] at hentc
          have hpb := parseBackground_raw_page hbr2 hbgp hlenp hrowsp
          have hpb2 := parseBackground_v3_page hbgp hlenp hrowsp
          obtain ⟨r, hgo⟩ := loadEntriesGo_ok n objs [] (emptyCellGrid n) 0 st hentc
          obtain ⟨es, cg, maxId, st2⟩ := r
          have hpidv3 : jGet [("page_id", (jGet pkvs "page_id").getD (.int 1)),
              ("background_rects",
                .arr ((background_to_rects n (legacy_parsed_grid pkvs)).map rect_to_json)),
              ("entries", (jGet pkvs "entries").getD (.arr []))] "page_id"
              = some ((jGet pkvs "page_id").getD (.int 1)) := rfl
          have hentv3 : jGet [("page_id", (jGet pkvs "page_id").getD (.int 1)),
              ("background_rects",
                .arr ((background_to_rects n (legacy_parsed_grid pkvs)).map rect_to_json)),
              ("entries", (jGet pkvs "entries").getD (.arr []))] "entries"
              = some ((jGet pkvs "entries").getD (.arr [])) := rfl
          constructor
          · simp only [v3_page_of, loadOnePage, hpidv3, hentv3, Option.getD_some,
              hpid, hpb, hpb2, entriesListOf]
          · refine ⟨(pid, ⟨pid, legacy_parsed_grid pkvs, es, cg, maxId + 1⟩, st2), ?_⟩
            simp only [loadOnePage, hpid, hpb, entriesListOf, hel, hgo]
        · simp only [hel] at hentc; simp at hentc

/-- The pages loop on raw-grid pages equals the loop on their compressed
equivalents and reports no error. -/
theorem loadPagesGo_raw (n : Nat) :
    ∀ (l : List J) (m : AppModel) (st : UidSt),
      (∀ p ∈ l, legacyPageWF n p = true) →
      loadPagesGo n l m st = loadPagesGo n (l.map (v3_page_of n)) m st ∧
      (loadPagesGo n l m st).2.2 = none := by
  intro l
  induction l with
  | nil => exact fun m st _ => ⟨rfl, rfl⟩
  | cons p rest ih =>
    intro m st hall
    have hp := hall p (List.mem_cons_self _ _)
    have hrest : ∀ q ∈ rest, legacyPageWF n q = true :=
      fun q hq => hall q (List.mem_cons_of_mem _ hq)
    obtain ⟨heq, ⟨⟨pid, pst, st2⟩, hok⟩⟩ := loadOnePage_raw hp st
    obtain ⟨ihE, ihN⟩ := ih { m with pages := dictSet m.pages pid pst } st2 hrest
    constructor
    · simp only [List.map_cons, loadPagesGo, ← heq, hok]
      exact ihE
    · simp only [loadPagesGo, hok]
      exact ihN

/-- A legacy document with no pages wrapper (single implicit page) loads
like its version-3 equivalent and succeeds. -/
theorem legacy_unwrapped_equiv (m : AppModel) (kvs : List (String × J))
    (rows objs : List J)
    (hv : (pyEqInt (jGet kvs "version") 1 || pyEqInt (jGet kvs "version") 2) = true)
    (hg : (pyEqInt (jGet kvs "grid_n") 16 || pyEqInt (jGet kvs "grid_n") 32) = true)
    (hp : pagesIsNone kvs = true)
    (hbg : jGet kvs "background" = some (.arr rows))
    (hlen : rows.length = grid_n_of kvs)
    (hrows : ∀ r ∈ rows, rowWF (grid_n_of kvs) r = true)
    (hent : legacy_entries_val kvs = .arr objs)
    (hwf : ∀ o ∈ objs, entryWF o = true) :
    load_from_json_dict m (.obj kvs) = load_from_json_dict m (legacy_to_v3 kvs) ∧
    (load_from_json_dict m (.obj kvs)).2 = none := by
  have h1 : load_from_json_dict m (.obj kvs)
      = load_body m kvs (grid_n_of kvs) [wrapper_page kvs] := by
    simp only [load_from_json_dict, validate_header_legacy hv hg hp]
  have hne1 : ([v3_page kvs] : List J) ≠ [] := List.cons_ne_nil _ _
  have h2 : load_from_json_dict m (legacy_to_v3 kvs)
      = load_body m (dictSet (dictSet kvs "version" (.int 3)) "pages"
          (.arr [v3_page kvs])) (grid_n_of kvs) [v3_page kvs] := by
    rw [legacy_to_v3]
    simp only [load_from_json_dict, validate_header_setv3 hg hne1]
  have hic : initial_counter (dictSet (dictSet kvs "version" (.int 3)) "pages"
      (.arr [v3_page kvs])) = initial_counter kvs := by
    rw [initial_counter, initial_counter, jGet_v3 _ _ _ _ (by decide) (by decide)]
  have hrs : ∀ pages, resolve_start (dictSet (dictSet kvs "version" (.int 3)) "pages"
      (.arr [v3_page kvs])) pages = resolve_start kvs pages := by
    intro pages
    rw [resolve_start, resolve_start, jGet_v3 _ _ _ _ (by decide) (by decide)]
  have hpg : loadPagesGo (grid_n_of kvs) [wrapper_page kvs]
        { m with grid_n := grid_n_of kvs, pages := [] } ⟨[], initial_counter kvs, 0⟩
      = loadPagesGo (grid_n_of kvs) [v3_page kvs]
        { m with grid_n := grid_n_of kvs, pages := [] } ⟨[], initial_counter kvs, 0⟩ := by
    simp only [loadPagesGo, loadOnePage_wrapper_eq_v3 hbg hlen hrows]
  constructor
  · rw [h1, h2, load_body, load_body, hic, hpg]
    simp only [hrs]
  · rw [h1, load_body]
    obtain ⟨r, hok⟩ := loadOnePage_wrapper_ok hbg hlen hrows hent hwf
      ⟨[], initial_counter kvs, 0⟩
    obtain ⟨pid, pst, st2⟩ := r
    simp only [loadPagesGo, hok]

/-- A legacy document that carries a pages wrapper whose pages hold raw
boolean grids loads like its version-3 equivalent and succeeds. -/
theorem legacy_wrapped_equiv (m : AppModel) (kvs : List (String × J)) (l : List J)
    (hv : (pyEqInt (jGet kvs "version") 1 || pyEqInt (jGet kvs "version") 2) = true)
    (hg : (pyEqInt (jGet kvs "grid_n") 16 || pyEqInt (jGet kvs "grid_n") 32) = true)
    (hpages : jGet kvs "pages" = some (.arr l))
    (hne : l ≠ [])
    (hall : ∀ p ∈ l, legacyPageWF (grid_n_of kvs) p = true) :
    load_from_json_dict m (.obj kvs) = load_from_json_dict m (legacy_wrapped_to_v3 kvs) ∧
    (load_from_json_dict m (.obj kvs)).2 = none := by
  have hLw : legacy_wrapped_to_v3 kvs = .obj (dictSet (dictSet kvs "version" (.int 3))
      "pages" (.arr (l.map (v3_page_of (grid_n_of kvs))))) := by
    simp only [legacy_wrapped_to_v3, hpages]
  have h1 : load_from_json_dict m (.obj kvs)
      = load_body m kvs (grid_n_of kvs) l := by
    simp only [load_from_json_dict, validate_header_wrapped hv hg hpages hne]
  have hnemap : l.map (v3_page_of (grid_n_of kvs)) ≠ [] := by
    cases l with
    | nil => exact absurd rfl hne
    | cons a t => simp
  have h2 : load_from_json_dict m (legacy_wrapped_to_v3 kvs)
      = load_body m (dictSet (dictSet kvs "version" (.int 3)) "pages"
          (.arr (l.map (v3_page_of (grid_n_of kvs))))) (grid_n_of kvs)
          (l.map (v3_page_of (grid_n_of kvs))) := by
    rw [hLw]
    simp only [load_from_json_dict, validate_header_setv3 hg hnemap]
  have hic : initial_counter (dictSet (dictSet kvs "version" (.int 3)) "pages"
      (.arr (l.map (v3_page_of (grid_n_of kvs))))) = initial_counter kvs := by
    rw [initial_counter, initial_counter, jGet_v3 _ _ _ _ (by decide) (by decide)]
  have hrs : ∀ pages, resolve_start (dictSet (dictSet kvs "version" (.int 3)) "pages"
      (.arr (l.map (v3_page_of (grid_n_of kvs))))) pages = resolve_start kvs pages := by
    intro pages
    rw [resolve_start, resolve_start, jGet_v3 _ _ _ _ (by decide) (by decide)]
  obtain ⟨hE, hN⟩ := loadPagesGo_raw (grid_n_of kvs) l
    { m with grid_n := grid_n_of kvs, pages := [] } ⟨[], initial_counter kvs, 0⟩ hall
  constructor
  · rw [h1, h2, load_body, load_body, hic, ← hE]
    simp only [hrs]
  · rw [h1, load_body]
    rcases hLP : loadPagesGo (grid_n_of kvs) l
        { m with grid_n := grid_n_of kvs, pages := [] }
        ⟨[], initial_counter kvs, 0⟩ with ⟨m2, stF, err⟩
    rw [hLP] at hN
    dsimp only at hN
    subst hN
    simp only [hLP]

/-! ## Claim C6 -/

/-- C6: Legacy format equivalence.  A document in a prior schema version
loads successfully and produces the model of its rectangle-compressed,
multi-page-wrapped version-3 equivalent, in both legacy forms: (1) a
version-1/2 document with a raw boolean `background` grid and no `pages`
wrapper, whose top-level background/entries load as a single implicit
page; and (2) a version-1/2 document that does carry a `pages` wrapper
whose pages hold raw boolean grids instead of `background_rects`. -/
theorem legacy_load_equivalence :
    (∀ (m : AppModel) (kvs : List (String × J)) (rows objs : List J),
      (pyEqInt (jGet kvs "version") 1 || pyEqInt (jGet kvs "version") 2) = true →
      (pyEqInt (jGet kvs "grid_n") 16 || pyEqInt (jGet kvs "grid_n") 32) = true →
      pagesIsNone kvs = true →
      jGet kvs "background" = some (.arr rows) →
      rows.length = grid_n_of kvs →
      (∀ r ∈ rows, rowWF (grid_n_of kvs) r = true) →
      legacy_entries_val kvs = .arr objs →
      (∀ o ∈ objs, entryWF o = true) →
      load_from_json_dict m (.obj kvs) = load_from_json_dict m (legacy_to_v3 kvs) ∧
      (load_from_json_dict m (.obj kvs)).2 = none) ∧
    (∀ (m : AppModel) (kvs : List (String × J)) (l : List J),
      (pyEqInt (jGet kvs "version") 1 || pyEqInt (jGet kvs "version") 2) = true →
      (pyEqInt (jGet kvs "grid_n") 16 || pyEqInt (jGet kvs "grid_n") 32) = true →
      jGet kvs "pages" = some (.arr l) →
      l ≠ [] →
      (∀ p ∈ l, legacyPageWF (grid_n_of kvs) p = true) →
      load_from_json_dict m (.obj kvs)
        = load_from_json_dict m (legacy_wrapped_to_v3 kvs) ∧
      (load_from_json_dict m (.obj kvs)).2 = none) :=
  ⟨legacy_unwrapped_equiv, legacy_wrapped_equiv⟩

/-- Witness for C6 at two concrete legacy documents: an unwrapped version-1
document with a raw 16 × 16 background and top-level entries, and a
version-2 document with a two-page wrapper holding raw boolean grids. -/
theorem legacy_load_equivalence_witness :
    (load_from_json_dict emptyModel (.obj legacyDocKvs)
        = load_from_json_dict emptyModel (legacy_to_v3 legacyDocKvs) ∧
      (load_from_json_dict emptyModel (.obj legacyDocKvs)).2 = none) ∧
    (load_from_json_dict emptyModel (.obj wrappedLegacyDocKvs)
        = load_from_json_dict emptyModel (legacy_wrapped_to_v3 wrappedLegacyDocKvs) ∧
      (load_from_json_dict emptyModel (.obj wrappedLegacyDocKvs)).2 = none) :=
  ⟨legacy_load_equivalence.1 emptyModel legacyDocKvs
    (J.arr (List.replicate 16 (J.bool true)) ::
      List.replicate 15 (J.arr (List.replicate 16 (J.bool false))))
    [J.obj [("id", .int 1), ("tool", .str "button_standard"),
            ("rect", .obj [("x0", .int 2), ("y0", .int 3),
                           ("x1", .int 4), ("y1", .int 4)]),
            ("uid", .int 3), ("label", .str "go")]]
    (by decide) (by decide) (by decide) rfl (by decide) (by decide) rfl (by decide),
   legacy_load_equivalence.2 emptyModel wrappedLegacyDocKvs
    [.obj [("page_id", .int 1),
           ("background",
             .arr (List.replicate 16 (J.arr (List.replicate 16 (J.bool false))))),
           ("entries", .arr [
              .obj [("id", .int 1), ("tool", .str "item_slot"),
                    ("rect", .obj [("x0", .int 1), ("y0", .int 1),
                                   ("x1", .int 2), ("y1", .int 2)]),
                    ("uid", .int 4)]])],
     .obj [("page_id", .int 2),
           ("background", .arr (J.arr (List.replicate 16 (J.bool true)) ::
              List.replicate 15 (J.arr (List.replicate 16 (J.bool false)))))]]
    (by decide) (by decide) rfl (List.cons_ne_nil _ _) (by decide)⟩

/-! ## Claims C4 and C5 -/

/-- C4 (counterexample): the claim "whenever load_from_json_dict rejects its
input with a validation error the in-memory model is left exactly as it was"
is false.  `badPageDoc` passes the header checks but fails the per-page
background validation; the load is rejected, yet `grid_n` has been changed
from 32 to 16 and the non-empty pages map has been cleared
(app.py lines 2560-2563 run before the per-page validation). -/
theorem load_not_atomic_counterexample :
    ((load_from_json_dict exampleModel badPageDoc).2).isSome = true ∧
    (load_from_json_dict exampleModel badPageDoc).1.grid_n = 16 ∧
    exampleModel.grid_n = 32 ∧
    (load_from_json_dict exampleModel badPageDoc).1.pages.isEmpty = true ∧
    exampleModel.pages.isEmpty = false := by
  refine ⟨by decide, by decide, by decide, by decide, by decide⟩

/-- C4 (amended): only the errors raised by the up-front validation phase
(non-object root, unsupported version, grid_n not 16/32, invalid pages
list) leave the in-memory model exactly as it was; errors raised during
per-page processing (wrong background dimensions, entries not a list,
malformed entry) occur after `grid_n` is set and the pages map is cleared,
so a rejected load can leave the model partially mutated. -/
theorem load_header_validation_atomic (m : AppModel) (data : J) (e : String)
    (h : validate_header data = .error e) :
    load_from_json_dict m data = (m, some e) := by
  unfold load_from_json_dict
  rw [h]

/-- Witness for the amended C4: a bad-version document leaves an arbitrary
concrete model untouched. -/
theorem load_header_validation_atomic_witness :
    (validate_header badVersionDoc =
      .error "Unsupported JSON version (expected 1, 2, or 3).") ∧
    load_from_json_dict exampleModel badVersionDoc =
      (exampleModel, some "Unsupported JSON version (expected 1, 2, or 3).") :=
  ⟨rfl, load_header_validation_atomic exampleModel badVersionDoc _ rfl⟩

/-- C5: the claim is right and the code is wrong (`return max_uid`,
app.py line 2593).  On `dupUidDoc` the load succeeds, entry 1 keeps its
stored uid 100, and for entry 2 the allocator marks counter value 1 as used
but returns `max_uid = 100`: the loaded model carries the duplicate uid
list [100, 100], violating global uniqueness. -/
theorem alloc_uid_duplicate_uids :
    (load_from_json_dict emptyModel dupUidDoc).2 = none ∧
    modelUids (load_from_json_dict emptyModel dupUidDoc).1 = [100, 100] ∧
    ¬ (modelUids (load_from_json_dict emptyModel dupUidDoc).1).Nodup := by
  refine ⟨by decide, by decide, by decide⟩

end GuiBuilder
